import Mathlib

/-!
Verification of the build-argument subsystem (`Args`) of the gn meta-build
generator, shallowly embedded from `gn/args.cc`.

Machine maps (`std::map<std::string_view, Value>` and
`std::map<const Settings*, ...>`) are embedded as association lists kept in
key order by the insertion operations; pointer identity of `Settings`
instances is embedded as a numeric `id` field; AST-node pointers (origins)
are embedded as numbers, with `0` standing for the null origin.
-/

namespace GnArgs

/-- Modelled from the spec: the payload of a `Value` is a tagged variant over
null, bool, integer, string (the list and scope variants are irrelevant to the
argument subsystem and omitted); equality is structural over the payload. -/
inductive ValData where
  | nullv
  | boolv (b : Bool)
  | intv (n : Int)
  | strv (s : String)
deriving DecidableEq, Repr

/-- Modelled from the spec: a `Value` carries a typed payload and an *origin*,
an opaque token (pointer) identifying the AST node that produced it; `0`
stands for the null origin. -/
structure Value where
  data : ValData
  origin : Nat
deriving DecidableEq, Repr

/-- `Scope::KeyValueMap`: a `std::map<std::string_view, Value>`, embedded as an
association list kept sorted by key by `KVMap.insert`. -/
abbrev KVMap := List (String × Value)

/-- `std::map::find`, returning the first entry with the given key. -/
def KVMap.find? : KVMap → String → Option Value
  | [], _ => none
  | e :: rest, k => if e.1 = k then some e.2 else KVMap.find? rest k

/-- `map[k] = v`: insert or replace, keeping the list sorted by key. -/
def KVMap.insert : KVMap → String → Value → KVMap
  | [], k, v => [(k, v)]
  | e :: rest, k, v =>
    if k < e.1 then (k, v) :: e :: rest
    else if e.1 = k then (k, v) :: rest
    else e :: KVMap.insert rest k v

/-- Modelled from the spec: a per-toolchain `Settings` descriptor: a stable
identity (the pointer, embedded as `id`), a toolchain label, and the
`is_default` flag. Map keys compare by identity. -/
structure Settings where
  id : Nat
  label : String
  is_default : Bool
deriving DecidableEq, Repr

/-- `std::map<const Settings*, Scope::KeyValueMap>`, embedded as an association
list ordered by the pointer value (`id`). -/
abbrev SettingsMap := List (Settings × KVMap)

/-- `std::map::find` on a `SettingsMap`. -/
def SettingsMap.find? : SettingsMap → Settings → Option KVMap
  | [], _ => none
  | e :: rest, s => if e.1 = s then some e.2 else SettingsMap.find? rest s

/-- `map[s] = m`: insert or replace, keeping pointer (`id`) order. -/
def SettingsMap.setEntry : SettingsMap → Settings → KVMap → SettingsMap
  | [], s, m => [(s, m)]
  | e :: rest, s, m =>
    if s.id < e.1.id then (s, m) :: e :: rest
    else if e.1 = s then (s, m) :: rest
    else e :: SettingsMap.setEntry rest s m

/-- `map[s]` read access: the stored map, or the empty map when absent. -/
def SettingsMap.getEntry (t : SettingsMap) (s : Settings) : KVMap :=
  (SettingsMap.find? t s).getD []

/-- `map[s]` default-insertion: `operator[]` creates an empty entry when the
key is absent. -/
def SettingsMap.ensure (t : SettingsMap) (s : Settings) : SettingsMap :=
  match SettingsMap.find? t s with
  | some _ => t
  | none => SettingsMap.setEntry t s []

/-- Modelled from the spec: a `Scope` is a symbol table bound to a `Settings`
instance, carrying a name→value mapping and the set of names marked used
(parent linkage is irrelevant to the argument subsystem and omitted). -/
structure Scope where
  settings : Settings
  values : KVMap
  used : List String
deriving DecidableEq, Repr

/-- Modelled from the spec: `Scope::SetValue(name, value, origin)` inserts or
replaces the entry, recording the given origin on the stored value. -/
def Scope.SetValue (sc : Scope) (name : String) (v : Value) (origin : Nat) : Scope :=
  { sc with values := KVMap.insert sc.values name { v with origin := origin } }

/-- Modelled from the spec: `Scope::MarkUsed(name)` adds the name to the used
set (idempotent). -/
def Scope.MarkUsed (sc : Scope) (name : String) : Scope :=
  if name ∈ sc.used then sc else { sc with used := name :: sc.used }

/-- Modelled from the spec: an `Err` carries the origin it is anchored at, a
short title, and an ordered list of sub-errors (the free-form help text is
rendering detail and not modelled). -/
structure Err where
  origin : Nat
  title : String
  sub : List (Nat × String)
deriving DecidableEq, Repr

/-- The four maps of `Args`, all protected by the single mutex in the source. -/
structure ArgsState where
  overrides : KVMap
  all_overrides : KVMap
  declared_per_toolchain : SettingsMap
  toolchain_overrides : SettingsMap
deriving DecidableEq, Repr

/-- `Args::Args()`: all four maps empty. -/
def Args.init : ArgsState := ⟨[], [], [], []⟩

/-- `Args::AddArgOverride`: writes the entry to both `overrides_` and
`all_overrides_`. -/
def AddArgOverride (name : String) (v : Value) (st : ArgsState) : ArgsState :=
  { st with overrides := KVMap.insert st.overrides name v,
            all_overrides := KVMap.insert st.all_overrides name v }

/-- `Args::AddArgOverrides`: the bulk form, entry by entry. -/
def AddArgOverrides : KVMap → ArgsState → ArgsState
  | [], st => st
  | e :: rest, st => AddArgOverrides rest (AddArgOverride e.1 e.2 st)

/-- `Args::AddDefaultArgOverrides`: writes to `overrides_` only. -/
def AddDefaultArgOverrides : KVMap → ArgsState → ArgsState
  | [], st => st
  | e :: rest, st =>
    AddDefaultArgOverrides rest
      { st with overrides := KVMap.insert st.overrides e.1 e.2 }

/-- `Args::GetArgOverride`: looks the name up in `all_overrides_`. -/
def GetArgOverride (name : String) (st : ArgsState) : Option Value :=
  KVMap.find? st.all_overrides name

/-- The comparator passed to `std::sort` in `Args::GetSortedToolchainsLocked`:
default toolchains first, then label ascending. -/
def toolchainBefore (a b : Settings) : Bool :=
  if a.is_default ≠ b.is_default then a.is_default
  else decide (a.label < b.label)

/-- Insertion into a list sorted by `toolchainBefore`. -/
def insertSortedToolchain (s : Settings) : List Settings → List Settings
  | [] => [s]
  | t :: rest =>
    if toolchainBefore s t then s :: t :: rest else t :: insertSortedToolchain s rest

/-- The sort performed in `Args::GetSortedToolchainsLocked` (insertion sort by
the `toolchainBefore` comparator). -/
def sortToolchains : List Settings → List Settings
  | [] => []
  | s :: rest => insertSortedToolchain s (sortToolchains rest)

/-- `Args::GetSortedToolchainsLocked`: the keys of
`declared_arguments_per_toolchain_`, sorted default-first then
label-ascending. -/
def GetSortedToolchainsLocked (st : ArgsState) : List Settings :=
  sortToolchains (st.declared_per_toolchain.map Prod.fst)

/-- The toolchain-iteration phase of `Args::GetArgFromAllArguments`: the first
hit for `name` among the declared-argument maps of the given toolchains. -/
def findInToolchains (st : ArgsState) : List Settings → String → Option Value
  | [], _ => none
  | s :: rest, name =>
    match KVMap.find? (SettingsMap.getEntry st.declared_per_toolchain s) name with
    | some v => some v
    | none => findInToolchains st rest name

/-- `Args::GetArgFromAllArguments`: `all_overrides_` first, then the first
declared default in sorted toolchain order, else absent. -/
def GetArgFromAllArguments (name : String) (st : ArgsState) : Option Value :=
  match GetArgOverride name st with
  | some v => some v
  | none => findInToolchains st (GetSortedToolchainsLocked st) name

def kHostOs : String := "host_os"
def kHostCpu : String := "host_cpu"
def kCurrentOs : String := "current_os"
def kCurrentCpu : String := "current_cpu"
def kTargetOs : String := "target_os"
def kTargetCpu : String := "target_cpu"

/-- The six system variables seeded by `Args::SetSystemVarsLocked`. -/
def sysVarNames : List String :=
  [kHostOs, kHostCpu, kCurrentOs, kCurrentCpu, kTargetOs, kTargetCpu]

/-- `Value(nullptr, std::string())`: the empty-string value with null origin. -/
def emptyStringValue : Value := ⟨.strv "", 0⟩

/-- `Args::SetSystemVarsLocked`, parameterized by the detected host OS and
architecture strings: seeds the six system variables into the scope, records
them as declared arguments for the scope's toolchain, and marks them used. -/
def SetSystemVarsLocked (os arch : String) (dest : Scope) (st : ArgsState) :
    Scope × ArgsState :=
  let os_val : Value := ⟨.strv os, 0⟩
  let arch_val : Value := ⟨.strv arch, 0⟩
  let dest := dest.SetValue kHostOs os_val 0
  let dest := dest.SetValue kTargetOs emptyStringValue 0
  let dest := dest.SetValue kCurrentOs emptyStringValue 0
  let dest := dest.SetValue kHostCpu arch_val 0
  let dest := dest.SetValue kTargetCpu emptyStringValue 0
  let dest := dest.SetValue kCurrentCpu emptyStringValue 0
  let decl := SettingsMap.getEntry st.declared_per_toolchain dest.settings
  let decl := KVMap.insert decl kHostOs os_val
  let decl := KVMap.insert decl kCurrentOs emptyStringValue
  let decl := KVMap.insert decl kTargetOs emptyStringValue
  let decl := KVMap.insert decl kHostCpu arch_val
  let decl := KVMap.insert decl kCurrentCpu emptyStringValue
  let decl := KVMap.insert decl kTargetCpu emptyStringValue
  let st := { st with declared_per_toolchain :=
      SettingsMap.setEntry st.declared_per_toolchain dest.settings decl }
  let dest := dest.MarkUsed kHostCpu
  let dest := dest.MarkUsed kCurrentCpu
  let dest := dest.MarkUsed kTargetCpu
  let dest := dest.MarkUsed kHostOs
  let dest := dest.MarkUsed kCurrentOs
  let dest := dest.MarkUsed kTargetOs
  (dest, st)

/-- The loop of `Args::ApplyOverridesLocked` over a fixed declared-arguments
map: only a value whose name has been declared is set into the scope. -/
def applyOverridesList (declared : KVMap) : KVMap → Scope → Scope
  | [], sc => sc
  | e :: rest, sc =>
    applyOverridesList declared rest
      (match KVMap.find? declared e.1 with
       | none => sc
       | some _ => sc.SetValue e.1 e.2 e.2.origin)

/-- `Args::ApplyOverridesLocked`: sets each value into the scope, but only if
its name is already declared for the scope's toolchain. -/
def ApplyOverridesLocked (values : KVMap) (scope : Scope) (st : ArgsState) : Scope :=
  applyOverridesList
    (SettingsMap.getEntry st.declared_per_toolchain scope.settings) values scope

/-- `Args::SaveOverrideRecordLocked`: merges the given values into
`all_overrides_`. -/
def SaveOverrideRecordLocked : KVMap → ArgsState → ArgsState
  | [], st => st
  | e :: rest, st =>
    SaveOverrideRecordLocked rest
      { st with all_overrides := KVMap.insert st.all_overrides e.1 e.2 }

/-- `Args::SetupRootScope`: seeds system variables, applies global then
toolchain overrides to the already-declared names, stores the toolchain
overrides for the scope's toolchain, and records them in `all_overrides_`. -/
def SetupRootScope (os arch : String) (dest : Scope) (tco : KVMap) (st : ArgsState) :
    Scope × ArgsState :=
  let p := SetSystemVarsLocked os arch dest st
  let dest := ApplyOverridesLocked p.2.overrides p.1 p.2
  let dest := ApplyOverridesLocked tco dest p.2
  let st := { p.2 with toolchain_overrides :=
      SettingsMap.setEntry p.2.toolchain_overrides dest.settings tco }
  let st := SaveOverrideRecordLocked tco st
  (dest, st)

/-- The title of the duplicate-declaration diagnostic. -/
def dupTitle : String := "Duplicate build argument declaration."

/-- The sub-error attached to the duplicate-declaration diagnostic. -/
def prevDeclTitle : String := "Previous declaration."

/-- The per-entry loop of `Args::DeclareArgs`: checks for a duplicate
declaration by origin identity, records the declaration, and writes the
effective value (toolchain override, else global override, else default) into
the scope, marking the name used. -/
def declareArgsLoop (tov : KVMap) (args : KVMap) (scope : Scope) (st : ArgsState) :
    Option Err × Scope × ArgsState :=
  match args with
  | [] => (none, scope, st)
  | (name, v) :: rest =>
    let declared := SettingsMap.getEntry st.declared_per_toolchain scope.settings
    let next : ArgsState → Option Err × Scope × ArgsState := fun st1 =>
      let scope1 :=
        match KVMap.find? tov name with
        | some tval => (scope.SetValue name tval tval.origin).MarkUsed name
        | none =>
          match KVMap.find? st1.overrides name with
          | some oval => (scope.SetValue name oval oval.origin).MarkUsed name
          | none => (scope.SetValue name v v.origin).MarkUsed name
      declareArgsLoop tov rest scope1 st1
    match KVMap.find? declared name with
    | some prev =>
      if prev.origin ≠ v.origin then
        (some { origin := v.origin, title := dupTitle,
                sub := [(prev.origin, prevDeclTitle)] }, scope, st)
      else
        next st
    | none =>
      let decl1 := KVMap.insert declared name v
      next { st with declared_per_toolchain :=
          SettingsMap.setEntry st.declared_per_toolchain scope.settings decl1 }

/-- `Args::DeclareArgs`: ensures the per-toolchain entries exist (the
`operator[]` side effect of the two `...ForToolchainLocked` helpers), then runs
the declaration loop. Returns `none` for success (`true` in the source) or the
emitted `Err` (`false`). -/
def DeclareArgs (args : KVMap) (scope : Scope) (st : ArgsState) :
    Option Err × Scope × ArgsState :=
  let st := { st with declared_per_toolchain :=
      SettingsMap.ensure st.declared_per_toolchain scope.settings }
  let st := { st with toolchain_overrides :=
      SettingsMap.ensure st.toolchain_overrides scope.settings }
  declareArgsLoop (SettingsMap.getEntry st.toolchain_overrides scope.settings)
    args scope st

/-- `RemoveDeclaredOverrides` (anonymous namespace): erases from `overrides`
every entry whose name is declared. -/
def RemoveDeclaredOverrides (declared_arguments : KVMap) (overrides : KVMap) : KVMap :=
  overrides.filter (fun e => (KVMap.find? declared_arguments e.1).isNone)

/-- The title of the unused-override diagnostic. -/
def unusedTitle : String := "Build argument has no effect."

/-- The loop of `Args::VerifyAllOverridesUsed` over
`declared_arguments_per_toolchain_`. -/
def removeAllDeclared : SettingsMap → KVMap → KVMap
  | [], ov => ov
  | e :: rest, ov => removeAllDeclared rest (RemoveDeclaredOverrides e.2 ov)

/-- `Args::VerifyAllOverridesUsed`: removes every declared name from a copy of
`all_overrides_`; returns `none` (`true`) when nothing remains, else the `Err`
for the first remaining entry. -/
def VerifyAllOverridesUsed (st : ArgsState) : Option Err :=
  match removeAllDeclared st.declared_per_toolchain st.all_overrides with
  | [] => none
  | (_, v) :: _ => some { origin := v.origin, title := unusedTitle, sub := [] }

/-- `Args::ValueWithOverride`. -/
structure ValueWithOverride where
  default_value : Value
  has_override : Bool
  override_value : Value
deriving DecidableEq, Repr

/-- `Value()`: the default-constructed null value. -/
def nullValue : Value := ⟨.nullv, 0⟩

/-- The result map of `Args::GetAllArguments`, a
`std::map<std::string_view, ValueWithOverride>`. -/
abbrev VWOMap := List (String × ValueWithOverride)

def VWOMap.find? : VWOMap → String → Option ValueWithOverride
  | [], _ => none
  | e :: rest, k => if e.1 = k then some e.2 else VWOMap.find? rest k

/-- Insertion at the sorted position (used only on absent keys). -/
def VWOMap.insertSorted : VWOMap → String → ValueWithOverride → VWOMap
  | [], k, v => [(k, v)]
  | e :: rest, k, v =>
    if k < e.1 then (k, v) :: e :: rest else e :: VWOMap.insertSorted rest k v

/-- `std::map::insert`: inserts at the sorted position only when the key is
absent (never overwrites). -/
def VWOMap.insertIfAbsent (m : VWOMap) (k : String) (v : ValueWithOverride) : VWOMap :=
  match VWOMap.find? m k with
  | some _ => m
  | none => VWOMap.insertSorted m k v

/-- The inner loop of `Args::GetAllArguments`: inserts one toolchain's
declared defaults, never overwriting an existing entry. -/
def insertToolchainDefaults : KVMap → VWOMap → VWOMap
  | [], acc => acc
  | e :: rest, acc =>
    insertToolchainDefaults rest (VWOMap.insertIfAbsent acc e.1 ⟨e.2, false, nullValue⟩)

/-- The outer loop of `Args::GetAllArguments` over the sorted toolchains. -/
def insertAllDefaults (st : ArgsState) : List Settings → VWOMap → VWOMap
  | [], acc => acc
  | s :: rest, acc =>
    insertAllDefaults st rest
      (insertToolchainDefaults (SettingsMap.getEntry st.declared_per_toolchain s) acc)

/-- The override-merge loop of `Args::GetAllArguments`: for each global
override whose name is present in the result, flip `has_override` and record
the override value. -/
def mergeOverrides : KVMap → VWOMap → VWOMap
  | [], acc => acc
  | e :: rest, acc =>
    mergeOverrides rest (acc.map (fun r =>
      if r.1 = e.1 then (r.1, { r.2 with has_override := true, override_value := e.2 })
      else r))

/-- `Args::GetAllArguments`: walks toolchains in sorted order inserting
declared defaults (first insertion wins), then merges `overrides_` into the
entries already present. -/
def GetAllArguments (st : ArgsState) : VWOMap :=
  mergeOverrides st.overrides
    (insertAllDefaults st (GetSortedToolchainsLocked st) [])


/-- The value seeded for a system variable by `SetSystemVarsLocked`: the
detected OS string for `host_os`, the detected architecture for `host_cpu`,
and the empty string for the four current/target variables. -/
def seededValue (os arch : String) (M : String) : Value :=
  if M = kHostOs then ⟨.strv os, 0⟩
  else if M = kHostCpu then ⟨.strv arch, 0⟩
  else ⟨.strv "", 0⟩

/-- The effective value `DeclareArgs` writes for a declared argument: the
toolchain override when one is recorded, else the global override, else the
declared default. -/
def effectiveValue (tov glob : KVMap) (n : String) (v : Value) : Value :=
  match KVMap.find? tov n with
  | some t => t
  | none =>
    match KVMap.find? glob n with
    | some o => o
    | none => v

/-- States reachable from a fresh `Args` by the public operations other than
`AddDefaultArgOverrides`. -/
inductive ReachableNoDefault : ArgsState → Prop where
  | init : ReachableNoDefault Args.init
  | addOne (n : String) (v : Value) (st : ArgsState) :
      ReachableNoDefault st → ReachableNoDefault (AddArgOverride n v st)
  | addMany (m : KVMap) (st : ArgsState) :
      ReachableNoDefault st → ReachableNoDefault (AddArgOverrides m st)
  | setup (os arch : String) (dest : Scope) (tco : KVMap) (st : ArgsState) :
      ReachableNoDefault st → ReachableNoDefault (SetupRootScope os arch dest tco st).2
  | declare (args : KVMap) (scope : Scope) (st : ArgsState) :
      ReachableNoDefault st → ReachableNoDefault (DeclareArgs args scope st).2.2

/-- A default-toolchain `Settings` instance used in concrete witnesses. -/
def exSettings : Settings := ⟨1, "", true⟩

/-- A fresh root scope used in concrete witnesses. -/
def exScope : Scope := ⟨exSettings, [], []⟩

theorem KVMap.find?_insert (m : KVMap) (k j : String) (v : Value) :
    KVMap.find? (KVMap.insert m k v) j = if k = j then some v else KVMap.find? m j := by
  induction m with
  | nil => rfl
  | cons e rest ih =>
    simp only [KVMap.insert]
    split
    · simp only [KVMap.find?]
    · next hlt =>
      split
      · next heq =>
        simp only [KVMap.find?]
        by_cases hkj : k = j
        · rw [if_pos hkj, if_pos hkj]
        · rw [if_neg hkj, if_neg hkj, heq, if_neg hkj]
      · next heq =>
        simp only [KVMap.find?, ih]
        by_cases hej : e.1 = j
        · have hkj : ¬ k = j := fun h => heq (hej.trans h.symm)
          rw [if_pos hej, if_neg hkj, if_pos hej]
        · rw [if_neg hej, if_neg hej]

theorem SettingsMap.find?_setEntry (t : SettingsMap) (s s' : Settings) (m : KVMap) :
    SettingsMap.find? (SettingsMap.setEntry t s m) s' =
      if s = s' then some m else SettingsMap.find? t s' := by
  induction t with
  | nil => rfl
  | cons e rest ih =>
    simp only [SettingsMap.setEntry]
    split
    · simp only [SettingsMap.find?]
    · next hlt =>
      split
      · next heq =>
        simp only [SettingsMap.find?]
        by_cases hss : s = s'
        · rw [if_pos hss, if_pos hss]
        · rw [if_neg hss, if_neg hss, heq, if_neg hss]
      · next heq =>
        simp only [SettingsMap.find?, ih]
        by_cases hes : e.1 = s'
        · have hss : ¬ s = s' := fun h => heq (hes.trans h.symm)
          rw [if_pos hes, if_neg hss, if_pos hes]
        · rw [if_neg hes, if_neg hes]

theorem SettingsMap.getEntry_setEntry (t : SettingsMap) (s s' : Settings) (m : KVMap) :
    SettingsMap.getEntry (SettingsMap.setEntry t s m) s' =
      if s = s' then m else SettingsMap.getEntry t s' := by
  simp only [SettingsMap.getEntry, SettingsMap.find?_setEntry]
  by_cases h : s = s' <;> simp [h]

theorem SettingsMap.getEntry_ensure (t : SettingsMap) (s s' : Settings) :
    SettingsMap.getEntry (SettingsMap.ensure t s) s' = SettingsMap.getEntry t s' := by
  unfold SettingsMap.ensure
  cases hf : SettingsMap.find? t s with
  | some m => rfl
  | none =>
    rw [SettingsMap.getEntry_setEntry]
    by_cases h : s = s'
    · subst h; simp [SettingsMap.getEntry, hf]
    · simp [h]

theorem SettingsMap.mem_keys_setEntry (t : SettingsMap) (s s' : Settings) (m : KVMap) :
    s' ∈ (SettingsMap.setEntry t s m).map Prod.fst ↔
      s' = s ∨ s' ∈ t.map Prod.fst := by
  induction t with
  | nil => simp [SettingsMap.setEntry, eq_comm]
  | cons e rest ih =>
    simp only [SettingsMap.setEntry]
    split
    · simp
    · split
      · next heq => subst heq; simp
      · simp [ih]; tauto

theorem SettingsMap.mem_keys_ensure (t : SettingsMap) (s s' : Settings) :
    s' ∈ (SettingsMap.ensure t s).map Prod.fst ↔ s' = s ∨ s' ∈ t.map Prod.fst := by
  unfold SettingsMap.ensure
  cases hf : SettingsMap.find? t s with
  | some m =>
    constructor
    · exact Or.inr
    · rintro (rfl | h)
      · induction t with
        | nil => simp [SettingsMap.find?] at hf
        | cons e rest ih =>
          simp only [SettingsMap.find?] at hf
          by_cases he : e.1 = s'
          · simp [he]
          · rw [if_neg he] at hf
            simp [ih hf]
      · exact h
  | none => exact SettingsMap.mem_keys_setEntry t s s' []

theorem Scope.settings_SetValue (sc : Scope) (n : String) (v : Value) (o : Nat) :
    (sc.SetValue n v o).settings = sc.settings := rfl

theorem Scope.settings_MarkUsed (sc : Scope) (n : String) :
    (sc.MarkUsed n).settings = sc.settings := by
  unfold Scope.MarkUsed; split <;> rfl

theorem Scope.values_MarkUsed (sc : Scope) (n : String) :
    (sc.MarkUsed n).values = sc.values := by
  unfold Scope.MarkUsed; split <;> rfl

theorem Scope.find?_SetValue (sc : Scope) (n j : String) (v : Value) (o : Nat) :
    KVMap.find? (sc.SetValue n v o).values j =
      if n = j then some { v with origin := o } else KVMap.find? sc.values j := by
  unfold Scope.SetValue
  exact KVMap.find?_insert sc.values n j _

theorem Scope.mem_used_MarkUsed (sc : Scope) (n j : String) :
    j ∈ (sc.MarkUsed n).used ↔ j = n ∨ j ∈ sc.used := by
  unfold Scope.MarkUsed
  split
  · next h =>
    constructor
    · exact Or.inr
    · rintro (rfl | hj)
      · exact h
      · exact hj
  · simp [List.mem_cons]

theorem Scope.used_SetValue (sc : Scope) (n : String) (v : Value) (o : Nat) :
    (sc.SetValue n v o).used = sc.used := rfl



theorem KVMap.find?_eq_none_iff (m : KVMap) (j : String) :
    KVMap.find? m j = none ↔ j ∉ m.map Prod.fst := by
  induction m with
  | nil => simp [KVMap.find?]
  | cons e rest ih =>
    simp only [KVMap.find?, List.map_cons, List.mem_cons]
    by_cases h : e.1 = j
    · subst h; simp
    · rw [if_neg h, ih]
      constructor
      · rintro hj (h1 | h2)
        · exact h h1.symm
        · exact hj h2
      · exact fun hj hm => hj (Or.inr hm)

theorem KVMap.find?_isSome_of_mem (m : KVMap) (e : String × Value) (h : e ∈ m) :
    (KVMap.find? m e.1).isSome := by
  induction m with
  | nil => cases h
  | cons f rest ih =>
    simp only [KVMap.find?]
    by_cases hf : f.1 = e.1
    · simp [hf]
    · rcases List.mem_cons.1 h with rfl | hmem
      · exact absurd rfl hf
      · simp [hf, ih hmem]

theorem SaveOverrideRecordLocked_overrides (values : KVMap) (st : ArgsState) :
    (SaveOverrideRecordLocked values st).overrides = st.overrides := by
  induction values generalizing st with
  | nil => rfl
  | cons e rest ih => simp [SaveOverrideRecordLocked, ih]

theorem SaveOverrideRecordLocked_declared (values : KVMap) (st : ArgsState) :
    (SaveOverrideRecordLocked values st).declared_per_toolchain =
      st.declared_per_toolchain := by
  induction values generalizing st with
  | nil => rfl
  | cons e rest ih => simp [SaveOverrideRecordLocked, ih]

theorem SaveOverrideRecordLocked_toolchain (values : KVMap) (st : ArgsState) :
    (SaveOverrideRecordLocked values st).toolchain_overrides =
      st.toolchain_overrides := by
  induction values generalizing st with
  | nil => rfl
  | cons e rest ih => simp [SaveOverrideRecordLocked, ih]

theorem SaveOverrideRecordLocked_find (values : KVMap) (st : ArgsState) (j : String)
    (hnd : (values.map Prod.fst).Nodup) :
    KVMap.find? (SaveOverrideRecordLocked values st).all_overrides j =
      match KVMap.find? values j with
      | some v => some v
      | none => KVMap.find? st.all_overrides j := by
  induction values generalizing st with
  | nil => rfl
  | cons e rest ih =>
    simp only [List.map_cons, List.nodup_cons] at hnd
    simp only [SaveOverrideRecordLocked, KVMap.find?]
    rw [ih _ hnd.2]
    by_cases hej : e.1 = j
    · subst hej
      have hr : KVMap.find? rest e.1 = none :=
        (KVMap.find?_eq_none_iff rest e.1).2 hnd.1
      simp [hr, KVMap.find?_insert]
    · rw [if_neg hej]
      cases hr : KVMap.find? rest j with
      | some v => simp [hr]
      | none => simp [hr, KVMap.find?_insert, hej]

theorem SaveOverrideRecordLocked_isSome_mono (values : KVMap) (st : ArgsState)
    (j : String) (h : (KVMap.find? st.all_overrides j).isSome) :
    (KVMap.find? (SaveOverrideRecordLocked values st).all_overrides j).isSome := by
  induction values generalizing st with
  | nil => exact h
  | cons e rest ih =>
    simp only [SaveOverrideRecordLocked]
    apply ih
    simp only [KVMap.find?_insert]
    by_cases hej : e.1 = j <;> simp [hej, h]

theorem applyOverridesList_settings (declared values : KVMap) (sc : Scope) :
    (applyOverridesList declared values sc).settings = sc.settings := by
  induction values generalizing sc with
  | nil => rfl
  | cons e rest ih =>
    simp only [applyOverridesList]
    rw [ih]
    cases KVMap.find? declared e.1 <;> rfl

theorem applyOverridesList_used (declared values : KVMap) (sc : Scope) :
    (applyOverridesList declared values sc).used = sc.used := by
  induction values generalizing sc with
  | nil => rfl
  | cons e rest ih =>
    simp only [applyOverridesList]
    rw [ih]
    cases KVMap.find? declared e.1 <;> rfl

theorem applyOverridesList_find (declared values : KVMap) (sc : Scope) (j : String)
    (hnd : (values.map Prod.fst).Nodup) :
    KVMap.find? (applyOverridesList declared values sc).values j =
      match KVMap.find? values j, KVMap.find? declared j with
      | some v, some _ => some v
      | _, _ => KVMap.find? sc.values j := by
  induction values generalizing sc with
  | nil => cases hd : KVMap.find? declared j <;> rfl
  | cons e rest ih =>
    simp only [List.map_cons, List.nodup_cons] at hnd
    simp only [applyOverridesList, KVMap.find?]
    rw [ih _ hnd.2]
    by_cases hej : e.1 = j
    · subst hej
      have hr : KVMap.find? rest e.1 = none :=
        (KVMap.find?_eq_none_iff rest e.1).2 hnd.1
      rw [hr]
      cases hd : KVMap.find? declared e.1 with
      | none => simp
      | some d => simp [Scope.find?_SetValue]
    · cases hr : KVMap.find? rest j with
      | some v =>
        cases hd : KVMap.find? declared j with
        | none =>
          cases hd2 : KVMap.find? declared e.1 with
          | none => simp
          | some d => simp [Scope.find?_SetValue, hej]
        | some d =>
          cases hd2 : KVMap.find? declared e.1 with
          | none => simp [hej]
          | some d2 => simp [Scope.find?_SetValue, hej]
      | none =>
        cases hd : KVMap.find? declared j with
        | none =>
          cases hd2 : KVMap.find? declared e.1 with
          | none => simp
          | some d => simp [Scope.find?_SetValue, hej]
        | some d =>
          cases hd2 : KVMap.find? declared e.1 with
          | none => simp [hej]
          | some d2 => simp [Scope.find?_SetValue, hej]



theorem SetSystemVarsLocked_state_overrides (os arch : String) (dest : Scope)
    (st : ArgsState) :
    (SetSystemVarsLocked os arch dest st).2.overrides = st.overrides := rfl

theorem SetSystemVarsLocked_state_all (os arch : String) (dest : Scope)
    (st : ArgsState) :
    (SetSystemVarsLocked os arch dest st).2.all_overrides = st.all_overrides := rfl

theorem SetSystemVarsLocked_state_tco (os arch : String) (dest : Scope)
    (st : ArgsState) :
    (SetSystemVarsLocked os arch dest st).2.toolchain_overrides =
      st.toolchain_overrides := rfl

theorem SetSystemVarsLocked_scope_settings (os arch : String) (dest : Scope)
    (st : ArgsState) :
    (SetSystemVarsLocked os arch dest st).1.settings = dest.settings := by
  simp [SetSystemVarsLocked, Scope.settings_MarkUsed, Scope.settings_SetValue]

theorem SetSystemVarsLocked_decl_other (os arch : String) (dest : Scope)
    (st : ArgsState) (s : Settings) (hs : ¬ dest.settings = s) :
    SettingsMap.getEntry
        (SetSystemVarsLocked os arch dest st).2.declared_per_toolchain s =
      SettingsMap.getEntry st.declared_per_toolchain s := by
  simp [SetSystemVarsLocked, SettingsMap.getEntry_setEntry, Scope.settings_SetValue, hs]

theorem SetSystemVarsLocked_decl_find (os arch : String) (dest : Scope)
    (st : ArgsState) (j : String) :
    KVMap.find?
        (SettingsMap.getEntry
          (SetSystemVarsLocked os arch dest st).2.declared_per_toolchain
          dest.settings) j =
      if j ∈ sysVarNames then some (seededValue os arch j)
      else KVMap.find? (SettingsMap.getEntry st.declared_per_toolchain dest.settings) j := by
  simp only [SetSystemVarsLocked, Scope.settings_SetValue,
    SettingsMap.getEntry_setEntry, if_pos rfl]
  by_cases hj : j ∈ sysVarNames
  · rw [if_pos hj]
    simp only [sysVarNames, List.mem_cons, List.not_mem_nil, or_false] at hj
    rcases hj with rfl | rfl | rfl | rfl | rfl | rfl <;>
      simp [KVMap.find?_insert, seededValue, emptyStringValue, kHostOs,
        kHostCpu, kCurrentOs, kCurrentCpu, kTargetOs, kTargetCpu]
  · rw [if_neg hj]
    simp only [sysVarNames, List.mem_cons, List.not_mem_nil, or_false, not_or] at hj
    obtain ⟨n1, n2, n3, n4, n5, n6⟩ := hj
    have m1 : ¬ (kHostOs = j) := fun h => n1 h.symm
    have m2 : ¬ (kHostCpu = j) := fun h => n2 h.symm
    have m3 : ¬ (kCurrentOs = j) := fun h => n3 h.symm
    have m4 : ¬ (kCurrentCpu = j) := fun h => n4 h.symm
    have m5 : ¬ (kTargetOs = j) := fun h => n5 h.symm
    have m6 : ¬ (kTargetCpu = j) := fun h => n6 h.symm
    simp [KVMap.find?_insert, m1, m2, m3, m4, m5, m6]

theorem SetSystemVarsLocked_scope_find (os arch : String) (dest : Scope)
    (st : ArgsState) (j : String) :
    KVMap.find? (SetSystemVarsLocked os arch dest st).1.values j =
      if j ∈ sysVarNames then some (seededValue os arch j)
      else KVMap.find? dest.values j := by
  by_cases hj : j ∈ sysVarNames
  · rw [if_pos hj]
    simp only [sysVarNames, List.mem_cons, List.not_mem_nil, or_false] at hj
    rcases hj with rfl | rfl | rfl | rfl | rfl | rfl <;>
      simp [SetSystemVarsLocked, Scope.values_MarkUsed, Scope.find?_SetValue,
        Scope.settings_SetValue, seededValue, emptyStringValue, kHostOs,
        kHostCpu, kCurrentOs, kCurrentCpu, kTargetOs, kTargetCpu]
  · rw [if_neg hj]
    simp only [sysVarNames, List.mem_cons, List.not_mem_nil, or_false, not_or] at hj
    obtain ⟨n1, n2, n3, n4, n5, n6⟩ := hj
    have m1 : ¬ (kHostOs = j) := fun h => n1 h.symm
    have m2 : ¬ (kHostCpu = j) := fun h => n2 h.symm
    have m3 : ¬ (kCurrentOs = j) := fun h => n3 h.symm
    have m4 : ¬ (kCurrentCpu = j) := fun h => n4 h.symm
    have m5 : ¬ (kTargetOs = j) := fun h => n5 h.symm
    have m6 : ¬ (kTargetCpu = j) := fun h => n6 h.symm
    simp [SetSystemVarsLocked, Scope.values_MarkUsed, Scope.find?_SetValue,
      Scope.settings_SetValue, m1, m2, m3, m4, m5, m6]

theorem SetupRootScope_scope_settings (os arch : String) (dest : Scope)
    (tco : KVMap) (st : ArgsState) :
    (SetupRootScope os arch dest tco st).1.settings = dest.settings := by
  simp [SetupRootScope, ApplyOverridesLocked, applyOverridesList_settings,
    SetSystemVarsLocked_scope_settings]

theorem SetupRootScope_state_overrides (os arch : String) (dest : Scope)
    (tco : KVMap) (st : ArgsState) :
    (SetupRootScope os arch dest tco st).2.overrides = st.overrides := by
  simp [SetupRootScope, SaveOverrideRecordLocked_overrides,
    SetSystemVarsLocked_state_overrides]

theorem SetupRootScope_state_declared (os arch : String) (dest : Scope)
    (tco : KVMap) (st : ArgsState) :
    (SetupRootScope os arch dest tco st).2.declared_per_toolchain =
      (SetSystemVarsLocked os arch dest st).2.declared_per_toolchain := by
  simp [SetupRootScope, SaveOverrideRecordLocked_declared]

theorem SetupRootScope_tco_getEntry (os arch : String) (dest : Scope)
    (tco : KVMap) (st : ArgsState) (s : Settings) :
    SettingsMap.getEntry
        (SetupRootScope os arch dest tco st).2.toolchain_overrides s =
      if dest.settings = s then tco
      else SettingsMap.getEntry st.toolchain_overrides s := by
  have hsettings :
      (ApplyOverridesLocked tco
        (ApplyOverridesLocked (SetSystemVarsLocked os arch dest st).2.overrides
          (SetSystemVarsLocked os arch dest st).1
          (SetSystemVarsLocked os arch dest st).2)
        (SetSystemVarsLocked os arch dest st).2).settings = dest.settings := by
    simp [ApplyOverridesLocked, applyOverridesList_settings,
      SetSystemVarsLocked_scope_settings]
  simp [SetupRootScope, SaveOverrideRecordLocked_toolchain, hsettings,
    SettingsMap.getEntry_setEntry, SetSystemVarsLocked_state_tco]

theorem SetupRootScope_all_isSome_mono (os arch : String) (dest : Scope)
    (tco : KVMap) (st : ArgsState) (j : String)
    (h : (KVMap.find? st.all_overrides j).isSome) :
    (KVMap.find? (SetupRootScope os arch dest tco st).2.all_overrides j).isSome := by
  simp only [SetupRootScope]
  exact SaveOverrideRecordLocked_isSome_mono _ _ _ h



theorem declareArgsLoop_overrides (tov args : KVMap) (scope : Scope) (st : ArgsState) :
    (declareArgsLoop tov args scope st).2.2.overrides = st.overrides := by
  induction args generalizing scope st with
  | nil => rfl
  | cons p rest ih =>
    obtain ⟨name, v⟩ := p
    simp only [declareArgsLoop]
    cases hfd : KVMap.find?
        (SettingsMap.getEntry st.declared_per_toolchain scope.settings) name with
    | some prev =>
      by_cases ho : prev.origin = v.origin
      · simp only [ho, ne_eq, not_true_eq_false, if_false, ite_false]
        exact ih _ _
      · simp [ho]
    | none => exact ih _ _

theorem declareArgsLoop_all (tov args : KVMap) (scope : Scope) (st : ArgsState) :
    (declareArgsLoop tov args scope st).2.2.all_overrides = st.all_overrides := by
  induction args generalizing scope st with
  | nil => rfl
  | cons p rest ih =>
    obtain ⟨name, v⟩ := p
    simp only [declareArgsLoop]
    cases hfd : KVMap.find?
        (SettingsMap.getEntry st.declared_per_toolchain scope.settings) name with
    | some prev =>
      by_cases ho : prev.origin = v.origin
      · simp only [ho, ne_eq, not_true_eq_false, if_false, ite_false]
        exact ih _ _
      · simp [ho]
    | none => exact ih _ _

theorem declareArgsLoop_tcomap (tov args : KVMap) (scope : Scope) (st : ArgsState) :
    (declareArgsLoop tov args scope st).2.2.toolchain_overrides =
      st.toolchain_overrides := by
  induction args generalizing scope st with
  | nil => rfl
  | cons p rest ih =>
    obtain ⟨name, v⟩ := p
    simp only [declareArgsLoop]
    cases hfd : KVMap.find?
        (SettingsMap.getEntry st.declared_per_toolchain scope.settings) name with
    | some prev =>
      by_cases ho : prev.origin = v.origin
      · simp only [ho, ne_eq, not_true_eq_false, if_false, ite_false]
        exact ih _ _
      · simp [ho]
    | none => exact ih _ _

theorem declareArgsLoop_settings (tov args : KVMap) (scope : Scope) (st : ArgsState) :
    (declareArgsLoop tov args scope st).2.1.settings = scope.settings := by
  induction args generalizing scope st with
  | nil => rfl
  | cons p rest ih =>
    obtain ⟨name, v⟩ := p
    simp only [declareArgsLoop]
    cases hfd : KVMap.find?
        (SettingsMap.getEntry st.declared_per_toolchain scope.settings) name with
    | some prev =>
      by_cases ho : prev.origin = v.origin
      · simp only [ho, ne_eq, not_true_eq_false, if_false, ite_false]
        rw [ih]
        cases KVMap.find? tov name with
        | some tval => simp [Scope.settings_MarkUsed, Scope.settings_SetValue]
        | none =>
          cases KVMap.find? st.overrides name with
          | some oval => simp [Scope.settings_MarkUsed, Scope.settings_SetValue]
          | none => simp [Scope.settings_MarkUsed, Scope.settings_SetValue]
      · simp [ho]
    | none =>
      rw [ih]
      cases KVMap.find? tov name with
      | some tval => simp [Scope.settings_MarkUsed, Scope.settings_SetValue]
      | none =>
        cases KVMap.find? st.overrides name with
        | some oval => simp [Scope.settings_MarkUsed, Scope.settings_SetValue]
        | none => simp [Scope.settings_MarkUsed, Scope.settings_SetValue]

theorem declareArgsLoop_preserves_value (tov args : KVMap) (scope : Scope)
    (st : ArgsState) (n : String) (hn : n ∉ args.map Prod.fst) :
    KVMap.find? (declareArgsLoop tov args scope st).2.1.values n =
      KVMap.find? scope.values n := by
  induction args generalizing scope st with
  | nil => rfl
  | cons p rest ih =>
    obtain ⟨name, v⟩ := p
    simp only [List.map_cons, List.mem_cons, not_or] at hn
    obtain ⟨hne, hrest⟩ := hn
    have hne' : ¬ (name = n) := fun h => hne h.symm
    simp only [declareArgsLoop]
    cases hfd : KVMap.find?
        (SettingsMap.getEntry st.declared_per_toolchain scope.settings) name with
    | some prev =>
      by_cases ho : prev.origin = v.origin
      · simp only [ho, ne_eq, not_true_eq_false, if_false, ite_false]
        rw [ih _ _ hrest]
        cases KVMap.find? tov name with
        | some tval => simp [Scope.values_MarkUsed, Scope.find?_SetValue, hne']
        | none =>
          cases KVMap.find? st.overrides name with
          | some oval => simp [Scope.values_MarkUsed, Scope.find?_SetValue, hne']
          | none => simp [Scope.values_MarkUsed, Scope.find?_SetValue, hne']
      · simp [ho]
    | none =>
      rw [ih _ _ hrest]
      cases KVMap.find? tov name with
      | some tval => simp [Scope.values_MarkUsed, Scope.find?_SetValue, hne']
      | none =>
        cases KVMap.find? st.overrides name with
        | some oval => simp [Scope.values_MarkUsed, Scope.find?_SetValue, hne']
        | none => simp [Scope.values_MarkUsed, Scope.find?_SetValue, hne']

theorem declareArgsLoop_used_mono (tov args : KVMap) (scope : Scope)
    (st : ArgsState) (n : String) (h : n ∈ scope.used) :
    n ∈ (declareArgsLoop tov args scope st).2.1.used := by
  induction args generalizing scope st with
  | nil => exact h
  | cons p rest ih =>
    obtain ⟨name, v⟩ := p
    simp only [declareArgsLoop]
    cases hfd : KVMap.find?
        (SettingsMap.getEntry st.declared_per_toolchain scope.settings) name with
    | some prev =>
      by_cases ho : prev.origin = v.origin
      · simp only [ho, ne_eq, not_true_eq_false, if_false, ite_false]
        apply ih
        cases KVMap.find? tov name with
        | some tval => exact (Scope.mem_used_MarkUsed _ _ _).2 (Or.inr h)
        | none =>
          cases KVMap.find? st.overrides name with
          | some oval => exact (Scope.mem_used_MarkUsed _ _ _).2 (Or.inr h)
          | none => exact (Scope.mem_used_MarkUsed _ _ _).2 (Or.inr h)
      · simp [ho, h]
    | none =>
      apply ih
      cases KVMap.find? tov name with
      | some tval => exact (Scope.mem_used_MarkUsed _ _ _).2 (Or.inr h)
      | none =>
        cases KVMap.find? st.overrides name with
        | some oval => exact (Scope.mem_used_MarkUsed _ _ _).2 (Or.inr h)
        | none => exact (Scope.mem_used_MarkUsed _ _ _).2 (Or.inr h)



theorem cons_dup_iff (name : String) (v : Value) (rest pre : KVMap)
    (headOK : ∀ prev, KVMap.find? pre name = some prev → prev.origin = v.origin) :
    ((∀ p ∈ ((name, v) :: rest : KVMap), ∀ prev,
        KVMap.find? pre p.1 = some prev → prev.origin = p.2.origin) ↔
      (∀ p ∈ rest, ∀ prev,
        KVMap.find? pre p.1 = some prev → prev.origin = p.2.origin)) := by
  constructor
  · exact fun h p hp => h p (List.mem_cons_of_mem _ hp)
  · intro h p hp prev hf
    rcases List.mem_cons.1 hp with rfl | hm
    · exact headOK prev hf
    · exact h p hm prev hf

theorem declareArgsLoop_err_spec (tov : KVMap) (args : KVMap) (scope : Scope)
    (st : ArgsState) (pre : KVMap)
    (hnd : (args.map Prod.fst).Nodup)
    (hpre : ∀ n, n ∈ args.map Prod.fst →
      KVMap.find? (SettingsMap.getEntry st.declared_per_toolchain scope.settings) n =
        KVMap.find? pre n) :
    ((declareArgsLoop tov args scope st).1 = none ↔
      ∀ p ∈ args, ∀ prev,
        KVMap.find? pre p.1 = some prev → prev.origin = p.2.origin)
    ∧ (∀ e, (declareArgsLoop tov args scope st).1 = some e →
        e.title = dupTitle ∧
        ∃ p ∈ args, ∃ prev, KVMap.find? pre p.1 = some prev ∧
          ¬ prev.origin = p.2.origin ∧ e.origin = p.2.origin ∧
          e.sub = [(prev.origin, prevDeclTitle)]) := by
  induction args generalizing scope st with
  | nil =>
    constructor
    · simp [declareArgsLoop]
    · intro e he
      simp [declareArgsLoop] at he
  | cons p rest ih =>
    obtain ⟨name, v⟩ := p
    simp only [List.map_cons, List.nodup_cons] at hnd
    have hd0 : KVMap.find?
        (SettingsMap.getEntry st.declared_per_toolchain scope.settings) name =
        KVMap.find? pre name :=
      hpre name (by simp)
    cases hp : KVMap.find? pre name with
    | some prev =>
      have hdp : KVMap.find?
          (SettingsMap.getEntry st.declared_per_toolchain scope.settings) name =
          some prev := hd0.trans hp
      by_cases ho : prev.origin = v.origin
      · -- same-origin redeclaration: fall through, state unchanged
        have headOK : ∀ prev', KVMap.find? pre name = some prev' →
            prev'.origin = v.origin := by
          intro prev' hf
          rw [hp] at hf
          cases hf
          exact ho
        have hpre' : ∀ n, n ∈ rest.map Prod.fst →
            KVMap.find? (SettingsMap.getEntry st.declared_per_toolchain
              scope.settings) n = KVMap.find? pre n :=
          fun n hn => hpre n (by simp [hn])
        cases htv : KVMap.find? tov name with
        | some tval =>
          simp only [declareArgsLoop, hdp, ho, ne_eq, not_true_eq_false, if_false,
            ite_false, htv]
          obtain ⟨ih1, ih2⟩ :=
            ih ((scope.SetValue name tval tval.origin).MarkUsed name) st hnd.2
              (by intro n hn
                  simp only [Scope.settings_MarkUsed, Scope.settings_SetValue]
                  exact hpre' n hn)
          constructor
          · rw [ih1, cons_dup_iff name v rest pre headOK]
          · intro e he
            obtain ⟨ht, q, hq, prev', h1, h2, h3, h4⟩ := ih2 e he
            exact ⟨ht, q, List.mem_cons_of_mem _ hq, prev', h1, h2, h3, h4⟩
        | none =>
          cases hov : KVMap.find? st.overrides name with
          | some oval =>
            simp only [declareArgsLoop, hdp, ho, ne_eq, not_true_eq_false, if_false,
              ite_false, htv, hov]
            obtain ⟨ih1, ih2⟩ :=
              ih ((scope.SetValue name oval oval.origin).MarkUsed name) st hnd.2
                (by intro n hn
                    simp only [Scope.settings_MarkUsed, Scope.settings_SetValue]
                    exact hpre' n hn)
            constructor
            · rw [ih1, cons_dup_iff name v rest pre headOK]
            · intro e he
              obtain ⟨ht, q, hq, prev', h1, h2, h3, h4⟩ := ih2 e he
              exact ⟨ht, q, List.mem_cons_of_mem _ hq, prev', h1, h2, h3, h4⟩
          | none =>
            simp only [declareArgsLoop, hdp, ho, ne_eq, not_true_eq_false, if_false,
              ite_false, htv, hov]
            obtain ⟨ih1, ih2⟩ :=
              ih ((scope.SetValue name v v.origin).MarkUsed name) st hnd.2
                (by intro n hn
                    simp only [Scope.settings_MarkUsed, Scope.settings_SetValue]
                    exact hpre' n hn)
            constructor
            · rw [ih1, cons_dup_iff name v rest pre headOK]
            · intro e he
              obtain ⟨ht, q, hq, prev', h1, h2, h3, h4⟩ := ih2 e he
              exact ⟨ht, q, List.mem_cons_of_mem _ hq, prev', h1, h2, h3, h4⟩
      · -- origin mismatch: duplicate error
        simp only [declareArgsLoop, hdp, ne_eq, ho, not_false_eq_true, if_true,
          ite_true]
        constructor
        · constructor
          · intro h
            cases h
          · intro h
            exact absurd (h (name, v) (by simp) prev hp) ho
        · intro e he
          cases he
          exact ⟨rfl, (name, v), by simp, prev, hp, ho, rfl, rfl⟩
    | none =>
      have hdp : KVMap.find?
          (SettingsMap.getEntry st.declared_per_toolchain scope.settings) name =
          none := hd0.trans hp
      have headOK : ∀ prev', KVMap.find? pre name = some prev' →
          prev'.origin = v.origin := by
        intro prev' hf
        rw [hp] at hf
        cases hf
      have hdecl1 : ∀ n, n ∈ rest.map Prod.fst →
          KVMap.find? (SettingsMap.getEntry
            (SettingsMap.setEntry st.declared_per_toolchain scope.settings
              (KVMap.insert (SettingsMap.getEntry st.declared_per_toolchain
                scope.settings) name v)) scope.settings) n =
          KVMap.find? pre n := by
        intro n hn
        rw [SettingsMap.getEntry_setEntry, if_pos rfl, KVMap.find?_insert]
        have hne : ¬ (name = n) := by
          intro h
          subst h
          exact hnd.1 hn
        rw [if_neg hne]
        exact hpre n (by simp [hn])
      cases htv : KVMap.find? tov name with
      | some tval =>
        simp only [declareArgsLoop, hdp, htv]
        obtain ⟨ih1, ih2⟩ :=
          ih ((scope.SetValue name tval tval.origin).MarkUsed name)
            ⟨st.overrides, st.all_overrides,
              SettingsMap.setEntry st.declared_per_toolchain scope.settings
                (KVMap.insert (SettingsMap.getEntry st.declared_per_toolchain
                  scope.settings) name v),
              st.toolchain_overrides⟩
            hnd.2
            (by intro n hn
                simp only [Scope.settings_MarkUsed, Scope.settings_SetValue]
                exact hdecl1 n hn)
        constructor
        · rw [ih1, cons_dup_iff name v rest pre headOK]
        · intro e he
          obtain ⟨ht, q, hq, prev', h1, h2, h3, h4⟩ := ih2 e he
          exact ⟨ht, q, List.mem_cons_of_mem _ hq, prev', h1, h2, h3, h4⟩
      | none =>
        cases hov : KVMap.find? st.overrides name with
        | some oval =>
          simp only [declareArgsLoop, hdp, htv, hov]
          obtain ⟨ih1, ih2⟩ :=
            ih ((scope.SetValue name oval oval.origin).MarkUsed name)
              ⟨st.overrides, st.all_overrides,
                SettingsMap.setEntry st.declared_per_toolchain scope.settings
                  (KVMap.insert (SettingsMap.getEntry st.declared_per_toolchain
                    scope.settings) name v),
                st.toolchain_overrides⟩
              hnd.2
              (by intro n hn
                  simp only [Scope.settings_MarkUsed, Scope.settings_SetValue]
                  exact hdecl1 n hn)
          constructor
          · rw [ih1, cons_dup_iff name v rest pre headOK]
          · intro e he
            obtain ⟨ht, q, hq, prev', h1, h2, h3, h4⟩ := ih2 e he
            exact ⟨ht, q, List.mem_cons_of_mem _ hq, prev', h1, h2, h3, h4⟩
        | none =>
          simp only [declareArgsLoop, hdp, htv, hov]
          obtain ⟨ih1, ih2⟩ :=
            ih ((scope.SetValue name v v.origin).MarkUsed name)
              ⟨st.overrides, st.all_overrides,
                SettingsMap.setEntry st.declared_per_toolchain scope.settings
                  (KVMap.insert (SettingsMap.getEntry st.declared_per_toolchain
                    scope.settings) name v),
                st.toolchain_overrides⟩
              hnd.2
              (by intro n hn
                  simp only [Scope.settings_MarkUsed, Scope.settings_SetValue]
                  exact hdecl1 n hn)
          constructor
          · rw [ih1, cons_dup_iff name v rest pre headOK]
          · intro e he
            obtain ⟨ht, q, hq, prev', h1, h2, h3, h4⟩ := ih2 e he
            exact ⟨ht, q, List.mem_cons_of_mem _ hq, prev', h1, h2, h3, h4⟩


theorem declareArgsLoop_success_spec (tov args : KVMap) (scope : Scope)
    (st : ArgsState)
    (hnd : (args.map Prod.fst).Nodup)
    (hsucc : (declareArgsLoop tov args scope st).1 = none) :
    ∀ p ∈ args,
      KVMap.find? (declareArgsLoop tov args scope st).2.1.values p.1 =
        some (effectiveValue tov st.overrides p.1 p.2) ∧
      p.1 ∈ (declareArgsLoop tov args scope st).2.1.used := by
  induction args generalizing scope st with
  | nil => intro p hp; cases hp
  | cons q rest ih =>
    obtain ⟨name, v⟩ := q
    simp only [List.map_cons, List.nodup_cons] at hnd
    cases hdp : KVMap.find?
        (SettingsMap.getEntry st.declared_per_toolchain scope.settings) name with
    | some prev =>
      by_cases ho : prev.origin = v.origin
      · cases htv : KVMap.find? tov name with
        | some tval =>
          simp only [declareArgsLoop, hdp, ho, ne_eq, not_true_eq_false, if_false,
            ite_false, htv] at hsucc ⊢
          intro p hp
          rcases List.mem_cons.1 hp with rfl | hm
          · constructor
            · rw [declareArgsLoop_preserves_value _ _ _ _ _ hnd.1]
              simp [Scope.values_MarkUsed, Scope.find?_SetValue, effectiveValue, htv]
            · exact declareArgsLoop_used_mono _ _ _ _ _
                ((Scope.mem_used_MarkUsed _ _ _).2 (Or.inl rfl))
          · exact ih _ _ hnd.2 hsucc p hm
        | none =>
          cases hov : KVMap.find? st.overrides name with
          | some oval =>
            simp only [declareArgsLoop, hdp, ho, ne_eq, not_true_eq_false, if_false,
              ite_false, htv, hov] at hsucc ⊢
            intro p hp
            rcases List.mem_cons.1 hp with rfl | hm
            · constructor
              · rw [declareArgsLoop_preserves_value _ _ _ _ _ hnd.1]
                simp [Scope.values_MarkUsed, Scope.find?_SetValue, effectiveValue,
                  htv, hov]
              · exact declareArgsLoop_used_mono _ _ _ _ _
                  ((Scope.mem_used_MarkUsed _ _ _).2 (Or.inl rfl))
            · exact ih _ _ hnd.2 hsucc p hm
          | none =>
            simp only [declareArgsLoop, hdp, ho, ne_eq, not_true_eq_false, if_false,
              ite_false, htv, hov] at hsucc ⊢
            intro p hp
            rcases List.mem_cons.1 hp with rfl | hm
            · constructor
              · rw [declareArgsLoop_preserves_value _ _ _ _ _ hnd.1]
                simp [Scope.values_MarkUsed, Scope.find?_SetValue, effectiveValue,
                  htv, hov]
              · exact declareArgsLoop_used_mono _ _ _ _ _
                  ((Scope.mem_used_MarkUsed _ _ _).2 (Or.inl rfl))
            · exact ih _ _ hnd.2 hsucc p hm
      · exfalso
        simp [declareArgsLoop, hdp, ho] at hsucc
    | none =>
      cases htv : KVMap.find? tov name with
      | some tval =>
        simp only [declareArgsLoop, hdp, htv] at hsucc ⊢
        intro p hp
        rcases List.mem_cons.1 hp with rfl | hm
        · constructor
          · rw [declareArgsLoop_preserves_value _ _ _ _ _ hnd.1]
            simp [Scope.values_MarkUsed, Scope.find?_SetValue, effectiveValue, htv]
          · exact declareArgsLoop_used_mono _ _ _ _ _
              ((Scope.mem_used_MarkUsed _ _ _).2 (Or.inl rfl))
        · exact ih _ _ hnd.2 hsucc p hm
      | none =>
        cases hov : KVMap.find? st.overrides name with
        | some oval =>
          simp only [declareArgsLoop, hdp, htv, hov] at hsucc ⊢
          intro p hp
          rcases List.mem_cons.1 hp with rfl | hm
          · constructor
            · rw [declareArgsLoop_preserves_value _ _ _ _ _ hnd.1]
              simp [Scope.values_MarkUsed, Scope.find?_SetValue, effectiveValue,
                htv, hov]
            · exact declareArgsLoop_used_mono _ _ _ _ _
                ((Scope.mem_used_MarkUsed _ _ _).2 (Or.inl rfl))
          · exact ih _ _ hnd.2 hsucc p hm
        | none =>
          simp only [declareArgsLoop, hdp, htv, hov] at hsucc ⊢
          intro p hp
          rcases List.mem_cons.1 hp with rfl | hm
          · constructor
            · rw [declareArgsLoop_preserves_value _ _ _ _ _ hnd.1]
              simp [Scope.values_MarkUsed, Scope.find?_SetValue, effectiveValue,
                htv, hov]
            · exact declareArgsLoop_used_mono _ _ _ _ _
                ((Scope.mem_used_MarkUsed _ _ _).2 (Or.inl rfl))
          · exact ih _ _ hnd.2 hsucc p hm



theorem DeclareArgs_eq (args : KVMap) (scope : Scope) (st : ArgsState) :
    DeclareArgs args scope st =
      declareArgsLoop (SettingsMap.getEntry st.toolchain_overrides scope.settings)
        args scope
        ⟨st.overrides, st.all_overrides,
          SettingsMap.ensure st.declared_per_toolchain scope.settings,
          SettingsMap.ensure st.toolchain_overrides scope.settings⟩ := by
  simp only [DeclareArgs, SettingsMap.getEntry_ensure]

theorem DeclareArgs_overrides (args : KVMap) (scope : Scope) (st : ArgsState) :
    (DeclareArgs args scope st).2.2.overrides = st.overrides := by
  rw [DeclareArgs_eq]
  exact declareArgsLoop_overrides _ _ _ _

theorem DeclareArgs_all (args : KVMap) (scope : Scope) (st : ArgsState) :
    (DeclareArgs args scope st).2.2.all_overrides = st.all_overrides := by
  rw [DeclareArgs_eq]
  exact declareArgsLoop_all _ _ _ _

theorem DeclareArgs_tco_getEntry (args : KVMap) (scope : Scope) (st : ArgsState)
    (s : Settings) :
    SettingsMap.getEntry (DeclareArgs args scope st).2.2.toolchain_overrides s =
      SettingsMap.getEntry st.toolchain_overrides s := by
  rw [DeclareArgs_eq, declareArgsLoop_tcomap]
  exact SettingsMap.getEntry_ensure _ _ _

theorem DeclareArgs_settings (args : KVMap) (scope : Scope) (st : ArgsState) :
    (DeclareArgs args scope st).2.1.settings = scope.settings := by
  rw [DeclareArgs_eq]
  exact declareArgsLoop_settings _ _ _ _

theorem DeclareArgs_err_spec (args : KVMap) (scope : Scope) (st : ArgsState)
    (hnd : (args.map Prod.fst).Nodup) :
    ((DeclareArgs args scope st).1 = none ↔
      ∀ p ∈ args, ∀ prev,
        KVMap.find?
            (SettingsMap.getEntry st.declared_per_toolchain scope.settings) p.1 =
          some prev →
        prev.origin = p.2.origin)
    ∧ (∀ e, (DeclareArgs args scope st).1 = some e →
        e.title = dupTitle ∧
        ∃ p ∈ args, ∃ prev,
          KVMap.find?
              (SettingsMap.getEntry st.declared_per_toolchain scope.settings) p.1 =
            some prev ∧
          ¬ prev.origin = p.2.origin ∧ e.origin = p.2.origin ∧
          e.sub = [(prev.origin, prevDeclTitle)]) := by
  rw [DeclareArgs_eq]
  exact declareArgsLoop_err_spec _ args scope _
    (SettingsMap.getEntry st.declared_per_toolchain scope.settings) hnd
    (fun n _ => by
      show KVMap.find? (SettingsMap.getEntry
        (SettingsMap.ensure st.declared_per_toolchain scope.settings)
        scope.settings) n = _
      rw [SettingsMap.getEntry_ensure])

theorem DeclareArgs_success_spec (args : KVMap) (scope : Scope) (st : ArgsState)
    (hnd : (args.map Prod.fst).Nodup)
    (hsucc : (DeclareArgs args scope st).1 = none) :
    ∀ p ∈ args,
      KVMap.find? (DeclareArgs args scope st).2.1.values p.1 =
        some (effectiveValue
          (SettingsMap.getEntry st.toolchain_overrides scope.settings)
          st.overrides p.1 p.2) ∧
      p.1 ∈ (DeclareArgs args scope st).2.1.used := by
  rw [DeclareArgs_eq]
  rw [DeclareArgs_eq] at hsucc
  exact declareArgsLoop_success_spec _ args scope _ hnd hsucc

/-- C3 — Declaration-gated effective values: for every `(name, value)` in an
`args` map (with distinct names, as in a `std::map`) processed by a successful
`DeclareArgs(args, scope_to_set)`, the value written into `scope_to_set` for
`name` is, in priority order, the toolchain override recorded for the scope's
`Settings`, else the global override from `overrides_`, else the declared
default — each carrying the origin of its source (origins are embedded in the
values) — and `name` is marked used in `scope_to_set` in every branch. -/
theorem c3_declare_args_effective_value (args : KVMap) (scope : Scope)
    (st : ArgsState)
    (hnd : (args.map Prod.fst).Nodup)
    (hsucc : (DeclareArgs args scope st).1 = none) :
    ∀ p ∈ args,
      KVMap.find? (DeclareArgs args scope st).2.1.values p.1 =
        some (effectiveValue
          (SettingsMap.getEntry st.toolchain_overrides scope.settings)
          st.overrides p.1 p.2) ∧
      p.1 ∈ (DeclareArgs args scope st).2.1.used :=
  DeclareArgs_success_spec args scope st hnd hsucc

/-- Concrete instantiation of C3: declaring `c`, which carries a toolchain
override, writes the toolchain override into the scope (although a global
override of `b` is also registered) and marks `c` used. -/
theorem c3_declare_args_effective_value_witness :
    ((([("c", ⟨.intv 3, 12⟩)] : KVMap).map Prod.fst).Nodup ∧
      (DeclareArgs [("c", ⟨.intv 3, 12⟩)] exScope
        ⟨[("b", ⟨.intv 20, 5⟩)], [("b", ⟨.intv 20, 5⟩)], [],
          [(exSettings, [("c", ⟨.intv 30, 6⟩)])]⟩).1 = none) ∧
    (∀ p ∈ ([("c", ⟨.intv 3, 12⟩)] : KVMap),
      KVMap.find?
          (DeclareArgs [("c", ⟨.intv 3, 12⟩)] exScope
            ⟨[("b", ⟨.intv 20, 5⟩)], [("b", ⟨.intv 20, 5⟩)], [],
              [(exSettings, [("c", ⟨.intv 30, 6⟩)])]⟩).2.1.values p.1 =
        some (effectiveValue
          (SettingsMap.getEntry
            (⟨[("b", ⟨.intv 20, 5⟩)], [("b", ⟨.intv 20, 5⟩)], [],
              [(exSettings, [("c", ⟨.intv 30, 6⟩)])]⟩ :
              ArgsState).toolchain_overrides exScope.settings)
          [("b", ⟨.intv 20, 5⟩)] p.1 p.2) ∧
      p.1 ∈
        (DeclareArgs [("c", ⟨.intv 3, 12⟩)] exScope
          ⟨[("b", ⟨.intv 20, 5⟩)], [("b", ⟨.intv 20, 5⟩)], [],
            [(exSettings, [("c", ⟨.intv 30, 6⟩)])]⟩).2.1.used) :=
  ⟨⟨by decide, by rfl⟩,
    c3_declare_args_effective_value _ _ _ (by decide) (by rfl)⟩

/-- C5 — Duplicate detection by origin identity: `DeclareArgs` succeeds
(returns `none`, i.e. `true`) iff no name in `args` is already declared for
this scope's `Settings` with a different recorded origin — in particular a
re-declaration with the identical origin is silently accepted — and on failure
the single emitted `Err` carries the title
"Duplicate build argument declaration.", is anchored at the new value's
origin, and holds one sub-error anchored at the previous declaration's
origin. -/
theorem c5_duplicate_detection_by_origin (args : KVMap) (scope : Scope)
    (st : ArgsState)
    (hnd : (args.map Prod.fst).Nodup) :
    ((DeclareArgs args scope st).1 = none ↔
      ∀ p ∈ args, ∀ prev,
        KVMap.find?
            (SettingsMap.getEntry st.declared_per_toolchain scope.settings) p.1 =
          some prev →
        prev.origin = p.2.origin)
    ∧ (∀ e, (DeclareArgs args scope st).1 = some e →
        e.title = dupTitle ∧
        ∃ p ∈ args, ∃ prev,
          KVMap.find?
              (SettingsMap.getEntry st.declared_per_toolchain scope.settings) p.1 =
            some prev ∧
          ¬ prev.origin = p.2.origin ∧ e.origin = p.2.origin ∧
          e.sub = [(prev.origin, prevDeclTitle)]) :=
  DeclareArgs_err_spec args scope st hnd

/-- Concrete instantiation of C5: re-declaring `x` (declared at origin 21)
with origin 22 fails with the duplicate-declaration error anchored at 22 with
a sub-error at 21; re-declaring it at origin 21 succeeds. -/
theorem c5_duplicate_detection_by_origin_witness :
    ((([("x", ⟨.intv 7, 22⟩)] : KVMap).map Prod.fst).Nodup ∧
      ((DeclareArgs [("x", ⟨.intv 7, 22⟩)] exScope
          ⟨[], [], [(exSettings, [("x", ⟨.intv 7, 21⟩)])], []⟩).1 = none ↔
        ∀ p ∈ ([("x", ⟨.intv 7, 22⟩)] : KVMap), ∀ prev,
          KVMap.find?
              (SettingsMap.getEntry
                (⟨[], [], [(exSettings, [("x", ⟨.intv 7, 21⟩)])], []⟩ :
                  ArgsState).declared_per_toolchain exScope.settings) p.1 =
            some prev →
          prev.origin = p.2.origin)) ∧
    (∀ e,
      (DeclareArgs [("x", ⟨.intv 7, 22⟩)] exScope
          ⟨[], [], [(exSettings, [("x", ⟨.intv 7, 21⟩)])], []⟩).1 = some e →
      e.title = dupTitle ∧
      ∃ p ∈ ([("x", ⟨.intv 7, 22⟩)] : KVMap), ∃ prev,
        KVMap.find?
            (SettingsMap.getEntry
              (⟨[], [], [(exSettings, [("x", ⟨.intv 7, 21⟩)])], []⟩ :
                ArgsState).declared_per_toolchain exScope.settings) p.1 =
          some prev ∧
        ¬ prev.origin = p.2.origin ∧ e.origin = p.2.origin ∧
        e.sub = [(prev.origin, prevDeclTitle)]) :=
  ⟨⟨by decide,
    (c5_duplicate_detection_by_origin _ _ _ (by decide)).1⟩,
    (c5_duplicate_detection_by_origin _ _ _ (by decide)).2⟩



theorem removeAllDeclared_mem (t : SettingsMap) (ov : KVMap) (p : String × Value) :
    p ∈ removeAllDeclared t ov ↔
      p ∈ ov ∧ ∀ q ∈ t, KVMap.find? q.2 p.1 = none := by
  induction t generalizing ov with
  | nil => simp [removeAllDeclared]
  | cons q rest ih =>
    simp only [removeAllDeclared, RemoveDeclaredOverrides, ih, List.mem_filter,
      List.mem_cons, Option.isNone_iff_eq_none]
    constructor
    · rintro ⟨⟨hp, hq⟩, hrest⟩
      refine ⟨hp, ?_⟩
      rintro r (rfl | hr)
      · exact hq
      · exact hrest r hr
    · rintro ⟨hp, hall⟩
      exact ⟨⟨hp, hall q (Or.inl rfl)⟩, fun r hr => hall r (Or.inr hr)⟩

theorem AddDefaultArgOverrides_all (m : KVMap) (st : ArgsState) :
    (AddDefaultArgOverrides m st).all_overrides = st.all_overrides := by
  induction m generalizing st with
  | nil => rfl
  | cons e rest ih => simp [AddDefaultArgOverrides, ih]

theorem AddDefaultArgOverrides_declared (m : KVMap) (st : ArgsState) :
    (AddDefaultArgOverrides m st).declared_per_toolchain =
      st.declared_per_toolchain := by
  induction m generalizing st with
  | nil => rfl
  | cons e rest ih => simp [AddDefaultArgOverrides, ih]

/-- C4 — Unused-override audit: `VerifyAllOverridesUsed` succeeds (returns
`none`, i.e. `true`) iff every name in `all_overrides_` is declared in the
per-toolchain declared-argument map of at least one `Settings` (a name
declared under any single toolchain never counts as unused); otherwise it
emits exactly one `Err` with title "Build argument has no effect.", anchored
at the origin of a remaining (never-declared) override, with no sub-errors. -/
theorem c4_unused_override_audit (st : ArgsState) :
    (VerifyAllOverridesUsed st = none ↔
      ∀ p ∈ st.all_overrides, ∃ q ∈ st.declared_per_toolchain,
        (KVMap.find? q.2 p.1).isSome)
    ∧ (∀ e, VerifyAllOverridesUsed st = some e →
        e.title = unusedTitle ∧
        ∃ p ∈ st.all_overrides,
          (∀ q ∈ st.declared_per_toolchain, KVMap.find? q.2 p.1 = none) ∧
          e.origin = p.2.origin ∧ e.sub = []) := by
  cases hu : removeAllDeclared st.declared_per_toolchain st.all_overrides with
  | nil =>
    constructor
    · simp only [VerifyAllOverridesUsed, hu]
      constructor
      · intro _ p hp
        by_contra hno
        push_neg at hno
        have hmem : p ∈ removeAllDeclared st.declared_per_toolchain st.all_overrides := by
          rw [removeAllDeclared_mem]
          refine ⟨hp, fun q hq => ?_⟩
          have := hno q hq
          simpa [Option.isNone_iff_eq_none, Option.not_isSome_iff_eq_none] using this
        rw [hu] at hmem
        cases hmem
      · intro _
        trivial
    · intro e he
      simp only [VerifyAllOverridesUsed, hu] at he
      exact Option.noConfusion he
  | cons head tail =>
    obtain ⟨hm, hall⟩ := (removeAllDeclared_mem st.declared_per_toolchain
      st.all_overrides head).1 (hu ▸ List.mem_cons_self head tail)
    constructor
    · simp only [VerifyAllOverridesUsed, hu]
      constructor
      · intro h
        cases h
      · intro h
        obtain ⟨q, hq, hsome⟩ := h head hm
        rw [hall q hq] at hsome
        cases hsome
    · intro e he
      simp only [VerifyAllOverridesUsed, hu] at he
      obtain ⟨hn, hv⟩ := head
      cases he
      exact ⟨rfl, (hn, hv), hm, hall, rfl, rfl⟩

/-- Concrete instantiation of C4: with a single never-declared entry `a` in
`all_overrides` and no declarations, the audit fails with the
no-effect error anchored at the override's origin. -/
theorem c4_unused_override_audit_witness :
    (VerifyAllOverridesUsed ⟨[], [("a", ⟨.intv 1, 5⟩)], [], []⟩ = none ↔
      ∀ p ∈ ([("a", ⟨.intv 1, 5⟩)] : KVMap), ∃ q ∈ ([] : SettingsMap),
        (KVMap.find? q.2 p.1).isSome)
    ∧ (∀ e, VerifyAllOverridesUsed ⟨[], [("a", ⟨.intv 1, 5⟩)], [], []⟩ = some e →
        e.title = unusedTitle ∧
        ∃ p ∈ ([("a", ⟨.intv 1, 5⟩)] : KVMap),
          (∀ q ∈ ([] : SettingsMap), KVMap.find? q.2 p.1 = none) ∧
          e.origin = p.2.origin ∧ e.sub = []) :=
  c4_unused_override_audit ⟨[], [("a", ⟨.intv 1, 5⟩)], [], []⟩

/-- C7 — Default-override invisibility to the audit: overrides registered only
via `AddDefaultArgOverrides` on a fresh `Args` never reach `all_overrides_`,
so `VerifyAllOverridesUsed` returns `none` (`true`) even though nothing was
ever declared; in particular this holds for `{a: 1, b: 2}`. -/
theorem c7_default_override_silence :
    (∀ m : KVMap,
      VerifyAllOverridesUsed (AddDefaultArgOverrides m Args.init) = none)
    ∧ VerifyAllOverridesUsed
        (AddDefaultArgOverrides
          [("a", ⟨.intv 1, 1⟩), ("b", ⟨.intv 2, 2⟩)] Args.init) = none := by
  have h : ∀ m : KVMap,
      VerifyAllOverridesUsed (AddDefaultArgOverrides m Args.init) = none := by
    intro m
    have h1 : (AddDefaultArgOverrides m Args.init).all_overrides = [] :=
      AddDefaultArgOverrides_all m Args.init
    have h2 : (AddDefaultArgOverrides m Args.init).declared_per_toolchain = [] :=
      AddDefaultArgOverrides_declared m Args.init
    simp [VerifyAllOverridesUsed, h1, h2, removeAllDeclared]
  exact ⟨h, h _⟩

theorem SetupRootScope_state_all_find (os arch : String) (dest : Scope)
    (tco : KVMap) (st : ArgsState) (j : String)
    (hnd : (tco.map Prod.fst).Nodup) :
    KVMap.find? (SetupRootScope os arch dest tco st).2.all_overrides j =
      match KVMap.find? tco j with
      | some v => some v
      | none => KVMap.find? st.all_overrides j := by
  simp only [SetupRootScope]
  rw [SaveOverrideRecordLocked_find _ _ _ hnd]
  rfl

/-- C2 counterexample, in two parts, each breaking
`overrides ⊆ all_overrides` as stated (over name→value entries, at all
times): (1) after `AddDefaultArgOverrides({a: 1})` on a fresh `Args`, the
entry `a ↦ 1` is in `overrides` but `a` is absent from `all_overrides`
altogether, because `AddDefaultArgOverrides` writes to `overrides_` only; and
(2) even without `AddDefaultArgOverrides`, after `AddArgOverride("a", v1)`
followed by `SetupRootScope` with toolchain override `a ↦ v2`,
`overrides` still maps `a` to `v1` while `SaveOverrideRecordLocked` has
overwritten `all_overrides[a]` to `v2 ≠ v1`, so the entry `(a, v1)` of
`overrides` is not in `all_overrides` although the name `a` is. -/
theorem c2_subset_invariant_counterexample :
    (KVMap.find?
        (AddDefaultArgOverrides [("a", ⟨.intv 1, 3⟩)] Args.init).overrides "a" =
      some ⟨.intv 1, 3⟩ ∧
    KVMap.find?
        (AddDefaultArgOverrides [("a", ⟨.intv 1, 3⟩)] Args.init).all_overrides "a" =
      none)
    ∧ (KVMap.find?
          (SetupRootScope "linux" "x64" exScope [("a", ⟨.intv 2, 8⟩)]
            (AddArgOverride "a" ⟨.intv 1, 7⟩ Args.init)).2.overrides "a" =
        some ⟨.intv 1, 7⟩ ∧
      KVMap.find?
          (SetupRootScope "linux" "x64" exScope [("a", ⟨.intv 2, 8⟩)]
            (AddArgOverride "a" ⟨.intv 1, 7⟩ Args.init)).2.all_overrides "a" =
        some ⟨.intv 2, 8⟩ ∧
      (⟨.intv 1, 7⟩ : Value) ≠ ⟨.intv 2, 8⟩) := by
  refine ⟨⟨rfl, rfl⟩, ?_, ?_, by decide⟩
  · rw [SetupRootScope_state_overrides]
    rfl
  · rw [SetupRootScope_state_all_find _ _ _ _ _ _ (by decide)]
    rfl

/-- C2 amended — Subset invariant, weakened exactly as the two
counterexamples force: after any sequence of public `Args` operations other
than `AddDefaultArgOverrides` (which by design populates `overrides` only),
every name present in the `overrides` map is also present in the
`all_overrides` map. The subset is stated over names rather than name→value
entries because `SetupRootScope` may overwrite the value recorded in
`all_overrides` with a toolchain override while `overrides` keeps the global
value. -/
theorem c2_subset_invariant_amended (st : ArgsState) (h : ReachableNoDefault st) :
    ∀ n, (KVMap.find? st.overrides n).isSome →
      (KVMap.find? st.all_overrides n).isSome := by
  induction h with
  | init => intro n hn; cases hn
  | addOne n0 v st0 _ ih =>
    intro n hn
    simp only [AddArgOverride, KVMap.find?_insert] at hn ⊢
    by_cases he : n0 = n
    · simp [he]
    · simp only [if_neg he] at hn ⊢
      exact ih n hn
  | addMany m st0 _ ih =>
    -- fold the single-entry step over the list
    clear * - ih
    induction m generalizing st0 with
    | nil => exact ih
    | cons e rest ihm =>
      simp only [AddArgOverrides]
      apply ihm
      intro n hn
      simp only [AddArgOverride, KVMap.find?_insert] at hn ⊢
      by_cases he : e.1 = n
      · simp [he]
      · simp only [if_neg he] at hn ⊢
        exact ih n hn
  | setup os arch dest tco st0 _ ih =>
    intro n hn
    rw [SetupRootScope_state_overrides] at hn
    exact SetupRootScope_all_isSome_mono os arch dest tco st0 n (ih n hn)
  | declare args scope st0 _ ih =>
    intro n hn
    rw [DeclareArgs_overrides] at hn
    rw [DeclareArgs_all]
    exact ih n hn

/-- Concrete instantiation of the amended C2: after `AddArgOverride("a", ·)`
on a fresh `Args` (a default-override-free sequence), `a` is present in
`all_overrides`. -/
theorem c2_subset_invariant_amended_witness :
    (KVMap.find?
      (AddArgOverride "a" ⟨.intv 1, 4⟩ Args.init).all_overrides "a").isSome :=
  c2_subset_invariant_amended _
    (ReachableNoDefault.addOne "a" ⟨.intv 1, 4⟩ Args.init ReachableNoDefault.init)
    "a" (by rfl)



theorem toolchainBefore_asymm (a b : Settings) (h : toolchainBefore a b = true) :
    toolchainBefore b a = false := by
  cases ha : a.is_default <;> cases hb : b.is_default <;>
    simp [toolchainBefore, ha, hb] at h ⊢
  · exact le_of_lt h
  · exact le_of_lt h

theorem toolchainBefore_neg_trans (b a c : Settings)
    (h1 : toolchainBefore b a = false) (h2 : toolchainBefore c b = false) :
    toolchainBefore c a = false := by
  cases ha : a.is_default <;> cases hb : b.is_default <;> cases hc : c.is_default <;>
    simp [toolchainBefore, ha, hb, hc] at h1 h2 ⊢
  · exact le_trans h1 h2
  · exact le_trans h1 h2

theorem mem_insertSortedToolchain (s x : Settings) (l : List Settings) :
    x ∈ insertSortedToolchain s l ↔ x = s ∨ x ∈ l := by
  induction l with
  | nil => simp [insertSortedToolchain]
  | cons t rest ih =>
    simp only [insertSortedToolchain]
    by_cases hb : toolchainBefore s t
    · simp [hb, List.mem_cons]
    · simp [hb, List.mem_cons, ih]
      tauto

theorem mem_sortToolchains (x : Settings) (l : List Settings) :
    x ∈ sortToolchains l ↔ x ∈ l := by
  induction l with
  | nil => simp [sortToolchains]
  | cons t rest ih =>
    simp [sortToolchains, mem_insertSortedToolchain, ih]

theorem pairwise_insertSortedToolchain (s : Settings) (l : List Settings)
    (h : l.Pairwise (fun a b => toolchainBefore b a = false)) :
    (insertSortedToolchain s l).Pairwise
      (fun a b => toolchainBefore b a = false) := by
  induction l with
  | nil => simp [insertSortedToolchain]
  | cons t rest ih =>
    obtain ⟨ht, hrest⟩ := List.pairwise_cons.1 h
    simp only [insertSortedToolchain]
    by_cases hb : toolchainBefore s t = true
    · rw [if_pos hb]
      refine List.Pairwise.cons ?_ h
      intro x hx
      rcases List.mem_cons.1 hx with rfl | hxm
      · exact toolchainBefore_asymm _ _ hb
      · exact toolchainBefore_neg_trans t s x
          (toolchainBefore_asymm _ _ hb) (ht x hxm)
    · rw [if_neg hb]
      refine List.Pairwise.cons ?_ (ih hrest)
      intro x hx
      rcases (mem_insertSortedToolchain s x rest).1 hx with rfl | hxm
      · exact Bool.eq_false_iff.2 hb
      · exact ht x hxm

theorem pairwise_sortToolchains (l : List Settings) :
    (sortToolchains l).Pairwise (fun a b => toolchainBefore b a = false) := by
  induction l with
  | nil => simp [sortToolchains]
  | cons t rest ih => exact pairwise_insertSortedToolchain t _ ih

theorem findInToolchains_none (st : ArgsState) (ts : List Settings) (name : String)
    (h : ∀ s ∈ ts,
      KVMap.find? (SettingsMap.getEntry st.declared_per_toolchain s) name = none) :
    findInToolchains st ts name = none := by
  induction ts with
  | nil => rfl
  | cons s rest ih =>
    simp only [findInToolchains, h s (List.mem_cons_self s rest)]
    exact ih (fun s' hs' => h s' (List.mem_cons_of_mem _ hs'))

theorem findInToolchains_first (st : ArgsState) (l1 : List Settings) (s : Settings)
    (l2 : List Settings) (name : String) (v : Value)
    (h1 : ∀ s' ∈ l1,
      KVMap.find? (SettingsMap.getEntry st.declared_per_toolchain s') name = none)
    (hs : KVMap.find? (SettingsMap.getEntry st.declared_per_toolchain s) name =
      some v) :
    findInToolchains st (l1 ++ s :: l2) name = some v := by
  induction l1 with
  | nil => simp [findInToolchains, hs]
  | cons q rest ih =>
    simp only [List.cons_append, findInToolchains,
      h1 q (List.mem_cons_self q rest)]
    exact ih (fun s' hs' => h1 s' (List.mem_cons_of_mem _ hs'))

theorem findInToolchains_isSome_iff (st : ArgsState) (ts : List Settings)
    (name : String) :
    (findInToolchains st ts name).isSome ↔
      ∃ s ∈ ts,
        (KVMap.find? (SettingsMap.getEntry st.declared_per_toolchain s) name).isSome := by
  induction ts with
  | nil => simp [findInToolchains]
  | cons s rest ih =>
    simp only [findInToolchains]
    cases hs : KVMap.find? (SettingsMap.getEntry st.declared_per_toolchain s) name with
    | some v => simp [hs]
    | none => simp [hs, ih]

/-- C8 — `GetArgFromAllArguments` resolution order: a value present in
`all_overrides_` is returned as is; otherwise the result is the declared
default of the first toolchain in the sorted toolchain order that declares the
name, and absent when no toolchain declares it. The sorted toolchain order is
the comparator order of the source (default toolchains first, ties broken by
label ascending — adjacent-pairwise no later toolchain sorts strictly before an
earlier one), and it enumerates exactly the keys of
`declared_arguments_per_toolchain_`. -/
theorem c8_get_arg_from_all_arguments (st : ArgsState) (name : String) :
    (∀ v, KVMap.find? st.all_overrides name = some v →
      GetArgFromAllArguments name st = some v)
    ∧ (KVMap.find? st.all_overrides name = none →
        ((∀ s ∈ GetSortedToolchainsLocked st,
            KVMap.find?
              (SettingsMap.getEntry st.declared_per_toolchain s) name = none) →
          GetArgFromAllArguments name st = none)
        ∧ (∀ l1 s l2 v, GetSortedToolchainsLocked st = l1 ++ s :: l2 →
            (∀ s' ∈ l1, KVMap.find?
              (SettingsMap.getEntry st.declared_per_toolchain s') name = none) →
            KVMap.find?
              (SettingsMap.getEntry st.declared_per_toolchain s) name = some v →
            GetArgFromAllArguments name st = some v))
    ∧ (GetSortedToolchainsLocked st).Pairwise
        (fun a b => toolchainBefore b a = false)
    ∧ (∀ s, s ∈ GetSortedToolchainsLocked st ↔
        s ∈ st.declared_per_toolchain.map Prod.fst) := by
  refine ⟨?_, ?_, ?_, ?_⟩
  · intro v hv
    simp [GetArgFromAllArguments, GetArgOverride, hv]
  · intro hnone
    constructor
    · intro hall
      simp only [GetArgFromAllArguments, GetArgOverride, hnone]
      exact findInToolchains_none st _ name hall
    · intro l1 s l2 v hsplit h1 hs
      simp only [GetArgFromAllArguments, GetArgOverride, hnone]
      rw [hsplit]
      exact findInToolchains_first st l1 s l2 name v h1 hs
  · exact pairwise_sortToolchains _
  · intro s
    exact mem_sortToolchains s _



theorem VWOMap.find?_insertSorted (m : VWOMap) (k j : String)
    (v : ValueWithOverride) (hk : VWOMap.find? m k = none) :
    VWOMap.find? (VWOMap.insertSorted m k v) j =
      if k = j then some v else VWOMap.find? m j := by
  induction m with
  | nil => rfl
  | cons e rest ih =>
    simp only [VWOMap.find?] at hk
    by_cases hek : e.1 = k
    · rw [if_pos hek] at hk
      cases hk
    · rw [if_neg hek] at hk
      simp only [VWOMap.insertSorted]
      by_cases hlt : k < e.1
      · rw [if_pos hlt]
        simp only [VWOMap.find?]
      · rw [if_neg hlt]
        simp only [VWOMap.find?, ih hk]
        by_cases hej : e.1 = j
        · have hkj : ¬ (k = j) := fun h => hek (hej.trans h.symm)
          rw [if_pos hej, if_neg hkj, if_pos hej]
        · rw [if_neg hej, if_neg hej]

theorem VWOMap.find?_insertIfAbsent (m : VWOMap) (k j : String)
    (v : ValueWithOverride) :
    VWOMap.find? (VWOMap.insertIfAbsent m k v) j =
      match VWOMap.find? m j with
      | some x => some x
      | none => if k = j then some v else none := by
  unfold VWOMap.insertIfAbsent
  cases hk : VWOMap.find? m k with
  | some x =>
    cases hj : VWOMap.find? m j with
    | some y => simp
    | none =>
      have hkj : ¬ (k = j) := by
        intro h
        rw [h, hj] at hk
        cases hk
      simp [hkj]
  | none =>
    rw [VWOMap.find?_insertSorted m k j v hk]
    by_cases hkj : k = j
    · subst hkj
      rw [hk]
    · cases hj : VWOMap.find? m j <;> simp [hkj]

theorem insertToolchainDefaults_find (m : KVMap) (acc : VWOMap) (j : String) :
    VWOMap.find? (insertToolchainDefaults m acc) j =
      match VWOMap.find? acc j with
      | some x => some x
      | none => (KVMap.find? m j).map (fun v => ⟨v, false, nullValue⟩) := by
  induction m generalizing acc with
  | nil => cases h : VWOMap.find? acc j <;> simp [insertToolchainDefaults, h, KVMap.find?]
  | cons e rest ih =>
    simp only [insertToolchainDefaults, KVMap.find?]
    rw [ih]
    rw [VWOMap.find?_insertIfAbsent]
    cases hj : VWOMap.find? acc j with
    | some x => simp
    | none =>
      by_cases hej : e.1 = j
      · simp [hej]
      · simp [hej]

theorem insertAllDefaults_find (st : ArgsState) (ts : List Settings)
    (acc : VWOMap) (j : String) :
    VWOMap.find? (insertAllDefaults st ts acc) j =
      match VWOMap.find? acc j with
      | some x => some x
      | none => (findInToolchains st ts j).map (fun v => ⟨v, false, nullValue⟩) := by
  induction ts generalizing acc with
  | nil => cases h : VWOMap.find? acc j <;> simp [insertAllDefaults, h, findInToolchains]
  | cons s rest ih =>
    simp only [insertAllDefaults, findInToolchains]
    rw [ih, insertToolchainDefaults_find]
    cases hj : VWOMap.find? acc j with
    | some x => simp
    | none =>
      cases hs : KVMap.find?
          (SettingsMap.getEntry st.declared_per_toolchain s) j with
      | some v => simp
      | none => simp

theorem VWOMap.find?_mapUpdate (m : VWOMap) (k j : String) (w : Value) :
    VWOMap.find? (m.map (fun r =>
      if r.1 = k then (r.1, { r.2 with has_override := true, override_value := w })
      else r)) j =
      match VWOMap.find? m j with
      | none => none
      | some x =>
        if j = k then some { x with has_override := true, override_value := w }
        else some x := by
  induction m with
  | nil => rfl
  | cons e rest ih =>
    simp only [List.map_cons, VWOMap.find?]
    by_cases hek : e.1 = k
    · rw [if_pos hek]
      by_cases hej : e.1 = j
      · have hjk : j = k := hej.symm.trans hek
        simp [VWOMap.find?, hej, hjk]
      · simp only [VWOMap.find?, hej, if_neg hej, if_false, ih]
    · rw [if_neg hek]
      by_cases hej : e.1 = j
      · have hjk : ¬ (j = k) := fun h => hek (hej.trans h)
        simp [VWOMap.find?, hej, hjk]
      · simp only [VWOMap.find?, hej, if_neg hej, if_false, ih]

theorem mergeOverrides_find (ov : KVMap) (acc : VWOMap) (j : String)
    (hnd : (ov.map Prod.fst).Nodup) :
    VWOMap.find? (mergeOverrides ov acc) j =
      match VWOMap.find? acc j with
      | none => none
      | some x =>
        match KVMap.find? ov j with
        | some w => some { x with has_override := true, override_value := w }
        | none => some x := by
  induction ov generalizing acc with
  | nil => cases h : VWOMap.find? acc j <;> simp [mergeOverrides, h, KVMap.find?]
  | cons e rest ih =>
    simp only [List.map_cons, List.nodup_cons] at hnd
    simp only [mergeOverrides, KVMap.find?]
    rw [ih _ hnd.2, VWOMap.find?_mapUpdate]
    by_cases hej : e.1 = j
    · subst hej
      have hr : KVMap.find? rest e.1 = none :=
        (KVMap.find?_eq_none_iff rest e.1).2 hnd.1
      rw [hr]
      cases hj : VWOMap.find? acc e.1 with
      | none => simp
      | some x => simp
    · cases hj : VWOMap.find? acc j with
      | none => simp [fun h => hej h]
      | some x =>
        have hje : ¬ (j = e.1) := fun h => hej h.symm
        simp [hje, hej]

theorem SettingsMap.find?_mem (t : SettingsMap) (s : Settings) (m : KVMap)
    (h : SettingsMap.find? t s = some m) : (s, m) ∈ t := by
  induction t with
  | nil => cases h
  | cons e rest ih =>
    simp only [SettingsMap.find?] at h
    by_cases he : e.1 = s
    · rw [if_pos he] at h
      cases h
      subst he
      exact List.mem_cons_self e rest
    · rw [if_neg he] at h
      exact List.mem_cons_of_mem _ (ih h)

theorem SettingsMap.find?_isSome_of_mem_keys (t : SettingsMap) (s : Settings)
    (h : s ∈ t.map Prod.fst) : (SettingsMap.find? t s).isSome := by
  induction t with
  | nil => cases h
  | cons e rest ih =>
    simp only [SettingsMap.find?]
    by_cases he : e.1 = s
    · simp [he]
    · rcases List.mem_cons.1 h with heq | hm
      · exact absurd heq.symm he
      · simp [he, ih hm]

theorem SettingsMap.getEntry_of_mem (t : SettingsMap) (q : Settings × KVMap)
    (hnd : (t.map Prod.fst).Nodup) (h : q ∈ t) :
    SettingsMap.getEntry t q.1 = q.2 := by
  induction t with
  | nil => cases h
  | cons e rest ih =>
    simp only [List.map_cons, List.nodup_cons] at hnd
    rcases List.mem_cons.1 h with rfl | hm
    · simp [SettingsMap.getEntry, SettingsMap.find?]
    · have hne : ¬ (e.1 = q.1) := by
        intro heq
        exact hnd.1 (heq ▸ List.mem_map_of_mem Prod.fst hm)
      simp only [SettingsMap.getEntry, SettingsMap.find?, if_neg hne]
      exact ih hnd.2 hm



theorem GetAllArguments_find (st : ArgsState) (j : String)
    (hndO : (st.overrides.map Prod.fst).Nodup) :
    VWOMap.find? (GetAllArguments st) j =
      match findInToolchains st (GetSortedToolchainsLocked st) j with
      | none => none
      | some v =>
        match KVMap.find? st.overrides j with
        | some w => some ⟨v, true, w⟩
        | none => some ⟨v, false, nullValue⟩ := by
  unfold GetAllArguments
  rw [mergeOverrides_find _ _ _ hndO, insertAllDefaults_find]
  cases hf : findInToolchains st (GetSortedToolchainsLocked st) j with
  | none => simp [VWOMap.find?]
  | some v =>
    cases ho : KVMap.find? st.overrides j with
    | some w => simp [VWOMap.find?]
    | none => simp [VWOMap.find?]

/-- C9 — `GetAllArguments` bulk view: the result contains exactly the names
declared by some toolchain; the `default_value` of an entry is the declared
default of the earliest toolchain in the sorted order that declares it (later
toolchains never overwrite); `has_override` is set (with the override value)
exactly for entries whose name is in the global `overrides_` map; names
overridden but declared nowhere are omitted. -/
theorem c9_get_all_arguments_view (st : ArgsState)
    (hndT : (st.declared_per_toolchain.map Prod.fst).Nodup)
    (hndO : (st.overrides.map Prod.fst).Nodup) :
    (∀ name, (VWOMap.find? (GetAllArguments st) name).isSome ↔
      ∃ q ∈ st.declared_per_toolchain, (KVMap.find? q.2 name).isSome)
    ∧ (∀ l1 s l2 name v, GetSortedToolchainsLocked st = l1 ++ s :: l2 →
        (∀ s' ∈ l1, KVMap.find?
          (SettingsMap.getEntry st.declared_per_toolchain s') name = none) →
        KVMap.find?
          (SettingsMap.getEntry st.declared_per_toolchain s) name = some v →
        ∃ vwo, VWOMap.find? (GetAllArguments st) name = some vwo ∧
          vwo.default_value = v)
    ∧ (∀ name vwo, VWOMap.find? (GetAllArguments st) name = some vwo →
        (∀ w, KVMap.find? st.overrides name = some w →
          vwo.has_override = true ∧ vwo.override_value = w)
        ∧ (KVMap.find? st.overrides name = none → vwo.has_override = false))
    ∧ (∀ name, (∀ q ∈ st.declared_per_toolchain, KVMap.find? q.2 name = none) →
        VWOMap.find? (GetAllArguments st) name = none) := by
  refine ⟨?_, ?_, ?_, ?_⟩
  · intro name
    rw [GetAllArguments_find st name hndO]
    have hiff := findInToolchains_isSome_iff st (GetSortedToolchainsLocked st) name
    constructor
    · intro h
      have hsome : (findInToolchains st (GetSortedToolchainsLocked st) name).isSome := by
        cases hf : findInToolchains st (GetSortedToolchainsLocked st) name with
        | none => rw [hf] at h; cases h
        | some v => simp
      obtain ⟨s, hs, hget⟩ := hiff.1 hsome
      have hkeys : s ∈ st.declared_per_toolchain.map Prod.fst :=
        (mem_sortToolchains s _).1 hs
      have hfs : (SettingsMap.find? st.declared_per_toolchain s).isSome :=
        SettingsMap.find?_isSome_of_mem_keys _ _ hkeys
      cases hfm : SettingsMap.find? st.declared_per_toolchain s with
      | none => rw [hfm] at hfs; cases hfs
      | some m =>
        refine ⟨(s, m), SettingsMap.find?_mem _ _ _ hfm, ?_⟩
        have : SettingsMap.getEntry st.declared_per_toolchain s = m := by
          simp [SettingsMap.getEntry, hfm]
        rw [this] at hget
        exact hget
    · intro h
      obtain ⟨q, hq, hsome⟩ := h
      have hget : SettingsMap.getEntry st.declared_per_toolchain q.1 = q.2 :=
        SettingsMap.getEntry_of_mem _ _ hndT hq
      have hmem : q.1 ∈ GetSortedToolchainsLocked st :=
        (mem_sortToolchains q.1 _).2 (List.mem_map_of_mem Prod.fst hq)
      have hsome2 :
          (findInToolchains st (GetSortedToolchainsLocked st) name).isSome :=
        hiff.2 ⟨q.1, hmem, by rw [hget]; exact hsome⟩
      cases hf : findInToolchains st (GetSortedToolchainsLocked st) name with
      | none => rw [hf] at hsome2; cases hsome2
      | some v => cases KVMap.find? st.overrides name <;> simp
  · intro l1 s l2 name v hsplit h1 hs
    rw [GetAllArguments_find st name hndO, hsplit,
      findInToolchains_first st l1 s l2 name v h1 hs]
    cases KVMap.find? st.overrides name with
    | some w => exact ⟨⟨v, true, w⟩, rfl, rfl⟩
    | none => exact ⟨⟨v, false, nullValue⟩, rfl, rfl⟩
  · intro name vwo hvwo
    rw [GetAllArguments_find st name hndO] at hvwo
    cases hf : findInToolchains st (GetSortedToolchainsLocked st) name with
    | none => rw [hf] at hvwo; cases hvwo
    | some v =>
      rw [hf] at hvwo
      cases ho : KVMap.find? st.overrides name with
      | some w =>
        rw [ho] at hvwo
        cases hvwo
        constructor
        · intro w' hw'
          cases hw'
          exact ⟨rfl, rfl⟩
        · intro hnone
          cases hnone
      | none =>
        rw [ho] at hvwo
        cases hvwo
        constructor
        · intro w' hw'
          cases hw'
        · intro _
          rfl
  · intro name hall
    rw [GetAllArguments_find st name hndO]
    have hnone : findInToolchains st (GetSortedToolchainsLocked st) name = none := by
      apply findInToolchains_none
      intro s hs
      have hkeys : s ∈ st.declared_per_toolchain.map Prod.fst :=
        (mem_sortToolchains s _).1 hs
      have hfs : (SettingsMap.find? st.declared_per_toolchain s).isSome :=
        SettingsMap.find?_isSome_of_mem_keys _ _ hkeys
      cases hfm : SettingsMap.find? st.declared_per_toolchain s with
      | none => rw [hfm] at hfs; cases hfs
      | some m =>
        have : SettingsMap.getEntry st.declared_per_toolchain s = m := by
          simp [SettingsMap.getEntry, hfm]
        rw [this]
        exact hall (s, m) (SettingsMap.find?_mem _ _ _ hfm)
    rw [hnone]

/-- Concrete instantiation of C9 at a state with one toolchain declaring `a`
(overridden globally) and an override-only name `z`. -/
theorem c9_get_all_arguments_view_witness :
    ((([(exSettings, [("a", ⟨.intv 1, 1⟩)])] :
        SettingsMap).map Prod.fst).Nodup ∧
      (([("z", ⟨.intv 9, 9⟩)] : KVMap).map Prod.fst).Nodup) ∧
    (∀ name,
      (VWOMap.find? (GetAllArguments
        ⟨[("z", ⟨.intv 9, 9⟩)], [("z", ⟨.intv 9, 9⟩)],
          [(exSettings, [("a", ⟨.intv 1, 1⟩)])], []⟩) name).isSome ↔
      ∃ q ∈ ([(exSettings, [("a", ⟨.intv 1, 1⟩)])] : SettingsMap),
        (KVMap.find? q.2 name).isSome) :=
  ⟨⟨by decide, by decide⟩,
    (c9_get_all_arguments_view
      ⟨[("z", ⟨.intv 9, 9⟩)], [("z", ⟨.intv 9, 9⟩)],
        [(exSettings, [("a", ⟨.intv 1, 1⟩)])], []⟩
      (by decide) (by decide)).1⟩



theorem SetupRootScope_scope_eq (os arch : String) (dest : Scope) (tco : KVMap)
    (st : ArgsState) :
    (SetupRootScope os arch dest tco st).1 =
      ApplyOverridesLocked tco
        (ApplyOverridesLocked (SetSystemVarsLocked os arch dest st).2.overrides
          (SetSystemVarsLocked os arch dest st).1
          (SetSystemVarsLocked os arch dest st).2)
        (SetSystemVarsLocked os arch dest st).2 := rfl

theorem SetupRootScope_scope_find (os arch : String) (dest : Scope) (tco : KVMap)
    (st : ArgsState) (j : String)
    (hndO : (st.overrides.map Prod.fst).Nodup)
    (hndT : (tco.map Prod.fst).Nodup) :
    KVMap.find? (SetupRootScope os arch dest tco st).1.values j =
      match KVMap.find? tco j,
        (if j ∈ sysVarNames then some (seededValue os arch j)
         else KVMap.find?
           (SettingsMap.getEntry st.declared_per_toolchain dest.settings) j) with
      | some t, some _ => some t
      | _, _ =>
        match KVMap.find? st.overrides j,
          (if j ∈ sysVarNames then some (seededValue os arch j)
           else KVMap.find?
             (SettingsMap.getEntry st.declared_per_toolchain dest.settings) j) with
        | some o, some _ => some o
        | _, _ =>
          if j ∈ sysVarNames then some (seededValue os arch j)
          else KVMap.find? dest.values j := by
  rw [SetupRootScope_scope_eq]
  simp only [ApplyOverridesLocked, applyOverridesList_settings,
    SetSystemVarsLocked_scope_settings, SetSystemVarsLocked_state_overrides]
  rw [applyOverridesList_find _ _ _ _ hndT]
  rw [applyOverridesList_find _ _ _ _ hndO]
  rw [SetSystemVarsLocked_decl_find, SetSystemVarsLocked_scope_find]

/-- C1 — Declaration-gated override application: immediately after
`SetupRootScope(dest, toolchain_overrides)` on a fresh scope, a name `N` that
is not one of the six seeded system variables and was not previously declared
for `dest`'s toolchain has no value in `dest` — no pending global or toolchain
override of `N` is applied; each seeded system variable is immediately visible
with the toolchain override, else the global override, else its seeded value
(so toolchain overrides are applied over global ones); and a pending override
of `N` becomes visible in the scope exactly when `DeclareArgs` is later called
with `N`, writing the toolchain override, else the global override, else the
declared default. -/
theorem c1_declaration_gated_overrides (os arch : String) (st : ArgsState)
    (dest : Scope) (tco : KVMap) (N : String)
    (hN : N ∉ sysVarNames)
    (hfresh : KVMap.find? dest.values N = none)
    (hdecl : KVMap.find?
      (SettingsMap.getEntry st.declared_per_toolchain dest.settings) N = none)
    (hndO : (st.overrides.map Prod.fst).Nodup)
    (hndT : (tco.map Prod.fst).Nodup) :
    KVMap.find? (SetupRootScope os arch dest tco st).1.values N = none
    ∧ (∀ M ∈ sysVarNames,
        KVMap.find? (SetupRootScope os arch dest tco st).1.values M =
          some (effectiveValue tco st.overrides M (seededValue os arch M)))
    ∧ (∀ d : Value,
        (DeclareArgs [(N, d)] (SetupRootScope os arch dest tco st).1
            (SetupRootScope os arch dest tco st).2).1 = none ∧
        KVMap.find?
            (DeclareArgs [(N, d)] (SetupRootScope os arch dest tco st).1
              (SetupRootScope os arch dest tco st).2).2.1.values N =
          some (effectiveValue tco st.overrides N d)) := by
  have hdecl' : (if N ∈ sysVarNames then some (seededValue os arch N)
      else KVMap.find?
        (SettingsMap.getEntry st.declared_per_toolchain dest.settings) N) =
      none := by
    rw [if_neg hN, hdecl]
  refine ⟨?_, ?_, ?_⟩
  · rw [SetupRootScope_scope_find os arch dest tco st N hndO hndT, hdecl']
    cases htv : KVMap.find? tco N <;> cases hov : KVMap.find? st.overrides N <;>
      simp [if_neg hN, hfresh]
  · intro M hM
    rw [SetupRootScope_scope_find os arch dest tco st M hndO hndT,
      if_pos hM]
    cases htv : KVMap.find? tco M with
    | some t => simp [effectiveValue, htv]
    | none =>
      cases hov : KVMap.find? st.overrides M with
      | some o => simp [effectiveValue, htv, hov]
      | none => simp [effectiveValue, htv, hov, hM]
  · intro d
    have hnd1 : (([(N, d)] : KVMap).map Prod.fst).Nodup := by simp
    have hdeclafter : KVMap.find?
        (SettingsMap.getEntry
          (SetupRootScope os arch dest tco st).2.declared_per_toolchain
          (SetupRootScope os arch dest tco st).1.settings) N = none := by
      rw [SetupRootScope_scope_settings, SetupRootScope_state_declared,
        SetSystemVarsLocked_decl_find, if_neg hN, hdecl]
    have hsucc : (DeclareArgs [(N, d)] (SetupRootScope os arch dest tco st).1
        (SetupRootScope os arch dest tco st).2).1 = none := by
      rw [(DeclareArgs_err_spec [(N, d)] _ _ hnd1).1]
      intro p hp prev hprev
      rcases List.mem_cons.1 hp with rfl | hm
      · rw [hdeclafter] at hprev
        cases hprev
      · cases hm
    refine ⟨hsucc, ?_⟩
    have hval := DeclareArgs_success_spec [(N, d)]
      (SetupRootScope os arch dest tco st).1
      (SetupRootScope os arch dest tco st).2 hnd1 hsucc (N, d)
      (List.mem_cons_self _ _)
    rw [hval.1]
    rw [SetupRootScope_scope_settings, SetupRootScope_tco_getEntry,
      if_pos rfl, SetupRootScope_state_overrides]


/-- Concrete instantiation of C1: with a pending global override of `a` and a
toolchain override of `b`, neither `a` nor `b` is visible right after
`SetupRootScope`; the system variables are immediately visible; and declaring
`a` afterwards makes its pending override visible. -/
theorem c1_declaration_gated_overrides_witness :
    ("a" ∉ sysVarNames ∧
      KVMap.find? exScope.values "a" = none ∧
      KVMap.find?
        (SettingsMap.getEntry
          (⟨[("a", ⟨.strv "avalue", 1⟩)], [("a", ⟨.strv "avalue", 1⟩)], [], []⟩ :
            ArgsState).declared_per_toolchain exScope.settings) "a" = none ∧
      ((([("a", ⟨.strv "avalue", 1⟩)] : KVMap).map Prod.fst).Nodup ∧
        (([("b", ⟨.strv "bvalue", 2⟩)] : KVMap).map Prod.fst).Nodup)) ∧
    (KVMap.find?
        (SetupRootScope "linux" "x64" exScope [("b", ⟨.strv "bvalue", 2⟩)]
          ⟨[("a", ⟨.strv "avalue", 1⟩)], [("a", ⟨.strv "avalue", 1⟩)], [],
            []⟩).1.values "a" = none
      ∧ (∀ M ∈ sysVarNames,
          KVMap.find?
              (SetupRootScope "linux" "x64" exScope [("b", ⟨.strv "bvalue", 2⟩)]
                ⟨[("a", ⟨.strv "avalue", 1⟩)], [("a", ⟨.strv "avalue", 1⟩)], [],
                  []⟩).1.values M =
            some (effectiveValue [("b", ⟨.strv "bvalue", 2⟩)]
              [("a", ⟨.strv "avalue", 1⟩)] M (seededValue "linux" "x64" M)))
      ∧ (∀ d : Value,
          (DeclareArgs [("a", d)]
              (SetupRootScope "linux" "x64" exScope [("b", ⟨.strv "bvalue", 2⟩)]
                ⟨[("a", ⟨.strv "avalue", 1⟩)], [("a", ⟨.strv "avalue", 1⟩)], [],
                  []⟩).1
              (SetupRootScope "linux" "x64" exScope [("b", ⟨.strv "bvalue", 2⟩)]
                ⟨[("a", ⟨.strv "avalue", 1⟩)], [("a", ⟨.strv "avalue", 1⟩)], [],
                  []⟩).2).1 = none ∧
          KVMap.find?
              (DeclareArgs [("a", d)]
                (SetupRootScope "linux" "x64" exScope [("b", ⟨.strv "bvalue", 2⟩)]
                  ⟨[("a", ⟨.strv "avalue", 1⟩)], [("a", ⟨.strv "avalue", 1⟩)], [],
                    []⟩).1
                (SetupRootScope "linux" "x64" exScope [("b", ⟨.strv "bvalue", 2⟩)]
                  ⟨[("a", ⟨.strv "avalue", 1⟩)], [("a", ⟨.strv "avalue", 1⟩)], [],
                    []⟩).2).2.1.values "a" =
            some (effectiveValue [("b", ⟨.strv "bvalue", 2⟩)]
              [("a", ⟨.strv "avalue", 1⟩)] "a" d))) :=
  ⟨⟨by decide, rfl, rfl, by decide, by decide⟩,
    c1_declaration_gated_overrides "linux" "x64"
      ⟨[("a", ⟨.strv "avalue", 1⟩)], [("a", ⟨.strv "avalue", 1⟩)], [], []⟩
      exScope [("b", ⟨.strv "bvalue", 2⟩)] "a"
      (by decide) rfl rfl (by decide) (by decide)⟩



theorem DeclareArgs_single_declared (name : String) (d : Value) (scope : Scope)
    (st : ArgsState)
    (hnotdecl : KVMap.find?
      (SettingsMap.getEntry st.declared_per_toolchain scope.settings) name = none) :
    (DeclareArgs [(name, d)] scope st).2.2.declared_per_toolchain =
      SettingsMap.setEntry
        (SettingsMap.ensure st.declared_per_toolchain scope.settings)
        scope.settings
        (KVMap.insert
          (SettingsMap.getEntry st.declared_per_toolchain scope.settings)
          name d) := by
  rw [DeclareArgs_eq]
  simp only [declareArgsLoop, SettingsMap.getEntry_ensure, hnotdecl]

theorem findInToolchains_unique (st : ArgsState) (ts : List Settings)
    (name : String) (d : Value) (s0 : Settings)
    (hmem : s0 ∈ ts)
    (hs0 : KVMap.find?
      (SettingsMap.getEntry st.declared_per_toolchain s0) name = some d)
    (hother : ∀ s ∈ ts, ¬ s = s0 →
      KVMap.find? (SettingsMap.getEntry st.declared_per_toolchain s) name = none) :
    findInToolchains st ts name = some d := by
  induction ts with
  | nil => cases hmem
  | cons s rest ih =>
    by_cases hs : s = s0
    · subst hs
      simp [findInToolchains, hs0]
    · simp only [findInToolchains,
        hother s (List.mem_cons_self s rest) hs]
      have hmem' : s0 ∈ rest := by
        rcases List.mem_cons.1 hmem with rfl | hm
        · exact absurd rfl hs
        · exact hm
      exact ih hmem' (fun s' hs' h' => hother s' (List.mem_cons_of_mem _ hs') h')

/-- C10 — Per-toolchain overrides never surface in the bulk view: for a name
overridden only through the `toolchain_overrides` recorded for a scope's
`Settings` (absent from the global `overrides_` map and declared nowhere
else), `DeclareArgs` writes the toolchain override into the scope, yet
`GetAllArguments` reports the name with `has_override = false` and the
declared default as `default_value`, because the bulk view's override merge
reads only the global `overrides_` map. -/
theorem c10_toolchain_override_invisible_in_bulk_view (scope : Scope)
    (st : ArgsState) (name : String) (w d : Value)
    (hov : KVMap.find? st.overrides name = none)
    (htco : KVMap.find?
      (SettingsMap.getEntry st.toolchain_overrides scope.settings) name = some w)
    (hnotdecl : KVMap.find?
      (SettingsMap.getEntry st.declared_per_toolchain scope.settings) name = none)
    (honly : ∀ q ∈ st.declared_per_toolchain, ¬ q.1 = scope.settings →
      KVMap.find? q.2 name = none)
    (hndO : (st.overrides.map Prod.fst).Nodup) :
    (DeclareArgs [(name, d)] scope st).1 = none
    ∧ KVMap.find? (DeclareArgs [(name, d)] scope st).2.1.values name = some w
    ∧ ∃ vwo,
        VWOMap.find? (GetAllArguments (DeclareArgs [(name, d)] scope st).2.2)
          name = some vwo ∧
        vwo.has_override = false ∧ vwo.default_value = d := by
  have hnd1 : (([(name, d)] : KVMap).map Prod.fst).Nodup := by simp
  have hsucc : (DeclareArgs [(name, d)] scope st).1 = none := by
    rw [(DeclareArgs_err_spec [(name, d)] _ _ hnd1).1]
    intro p hp prev hprev
    rcases List.mem_cons.1 hp with rfl | hm
    · rw [hnotdecl] at hprev
      cases hprev
    · cases hm
  refine ⟨hsucc, ?_, ?_⟩
  · have hval := DeclareArgs_success_spec [(name, d)] scope st hnd1 hsucc
      (name, d) (List.mem_cons_self _ _)
    rw [hval.1]
    simp [effectiveValue, htco]
  · -- the bulk view over the post-declaration state
    have hdecl' := DeclareArgs_single_declared name d scope st hnotdecl
    have hov' : KVMap.find?
        (DeclareArgs [(name, d)] scope st).2.2.overrides name = none := by
      rw [DeclareArgs_overrides]
      exact hov
    have hndO' : ((DeclareArgs [(name, d)] scope st).2.2.overrides.map
        Prod.fst).Nodup := by
      rw [DeclareArgs_overrides]
      exact hndO
    have hget_self : KVMap.find?
        (SettingsMap.getEntry
          (DeclareArgs [(name, d)] scope st).2.2.declared_per_toolchain
          scope.settings) name = some d := by
      rw [hdecl', SettingsMap.getEntry_setEntry, if_pos rfl, KVMap.find?_insert,
        if_pos rfl]
    have hget_other : ∀ s, ¬ s = scope.settings →
        SettingsMap.getEntry
          (DeclareArgs [(name, d)] scope st).2.2.declared_per_toolchain s =
        SettingsMap.getEntry st.declared_per_toolchain s := by
      intro s hs
      rw [hdecl', SettingsMap.getEntry_setEntry,
        if_neg (fun h => hs h.symm), SettingsMap.getEntry_ensure]
    have hmem_self : scope.settings ∈
        GetSortedToolchainsLocked (DeclareArgs [(name, d)] scope st).2.2 := by
      rw [GetSortedToolchainsLocked, mem_sortToolchains, hdecl']
      rw [SettingsMap.mem_keys_setEntry]
      exact Or.inl rfl
    have hfind : findInToolchains (DeclareArgs [(name, d)] scope st).2.2
        (GetSortedToolchainsLocked (DeclareArgs [(name, d)] scope st).2.2)
        name = some d := by
      apply findInToolchains_unique _ _ name d scope.settings hmem_self hget_self
      intro s hs hne
      rw [hget_other s hne]
      have hkeys : s ∈ ((DeclareArgs [(name, d)] scope
          st).2.2.declared_per_toolchain).map Prod.fst := by
        rw [GetSortedToolchainsLocked, mem_sortToolchains] at hs
        exact hs
      rw [hdecl', SettingsMap.mem_keys_setEntry, SettingsMap.mem_keys_ensure]
        at hkeys
      rcases hkeys with rfl | hkeys
      · exact absurd rfl hne
      · rcases hkeys with rfl | hkeys
        · exact absurd rfl hne
        · have hfs : (SettingsMap.find? st.declared_per_toolchain s).isSome :=
            SettingsMap.find?_isSome_of_mem_keys _ _ hkeys
          cases hfm : SettingsMap.find? st.declared_per_toolchain s with
          | none => rw [hfm] at hfs; cases hfs
          | some m =>
            have hgm : SettingsMap.getEntry st.declared_per_toolchain s = m := by
              simp [SettingsMap.getEntry, hfm]
            rw [hgm]
            exact honly (s, m) (SettingsMap.find?_mem _ _ _ hfm) hne
    rw [GetAllArguments_find _ _ hndO', hfind, DeclareArgs_overrides, hov]
    exact ⟨⟨d, false, nullValue⟩, rfl, rfl, rfl⟩


/-- Concrete instantiation of C10: `b` is overridden only in the toolchain
overrides of the default toolchain; after declaring it, the scope holds the
toolchain override `bvalue` while the bulk view reports `has_override = false`
with the declared default `bdefault`. -/
theorem c10_toolchain_override_invisible_in_bulk_view_witness :
    ((KVMap.find?
        (⟨[], [], [], [(exSettings, [("b", ⟨.strv "bvalue", 2⟩)])]⟩ :
          ArgsState).overrides "b" = none ∧
      KVMap.find?
        (SettingsMap.getEntry
          (⟨[], [], [], [(exSettings, [("b", ⟨.strv "bvalue", 2⟩)])]⟩ :
            ArgsState).toolchain_overrides exScope.settings) "b" =
        some ⟨.strv "bvalue", 2⟩ ∧
      KVMap.find?
        (SettingsMap.getEntry
          (⟨[], [], [], [(exSettings, [("b", ⟨.strv "bvalue", 2⟩)])]⟩ :
            ArgsState).declared_per_toolchain exScope.settings) "b" = none) ∧
    ((DeclareArgs [("b", ⟨.strv "bdefault", 3⟩)] exScope
        ⟨[], [], [], [(exSettings, [("b", ⟨.strv "bvalue", 2⟩)])]⟩).1 = none
      ∧ KVMap.find?
          (DeclareArgs [("b", ⟨.strv "bdefault", 3⟩)] exScope
            ⟨[], [], [], [(exSettings, [("b", ⟨.strv "bvalue", 2⟩)])]⟩).2.1.values
          "b" = some ⟨.strv "bvalue", 2⟩
      ∧ ∃ vwo,
          VWOMap.find?
            (GetAllArguments
              (DeclareArgs [("b", ⟨.strv "bdefault", 3⟩)] exScope
                ⟨[], [], [],
                  [(exSettings, [("b", ⟨.strv "bvalue", 2⟩)])]⟩).2.2) "b" =
            some vwo ∧
          vwo.has_override = false ∧
          vwo.default_value = ⟨.strv "bdefault", 3⟩)) :=
  ⟨⟨rfl, by rfl, rfl⟩,
    c10_toolchain_override_invisible_in_bulk_view exScope
      ⟨[], [], [], [(exSettings, [("b", ⟨.strv "bvalue", 2⟩)])]⟩
      "b" ⟨.strv "bvalue", 2⟩ ⟨.strv "bdefault", 3⟩
      rfl (by rfl) rfl
      (by intro q hq; cases hq)
      (by decide)⟩


end GnArgs
